import Mathlib

/-! Graphics: image buffers, software mipmap generation and the texture resource

A shallow embedding of `Graphics/Texture.hpp` (`ImageData`) and
`Graphics/src/Texture.cpp` (`Texture_Impl`, `GenerateMipmap`).

Conventions of the embedding

* `uint32_t` values are natural numbers; every `uint32_t` operation that can
  wrap is written with an explicit `u32` (reduction modulo `2 ^ 32`).
* A pointer to a store of `uint8_t` is the list of the bytes it points to.
* `Option` models the absence of a defined result of the C++ program: `none`
  is returned where the source reads or writes outside a store or overflows a
  signed integer (undefined behaviour), or where `std::vector::at` throws.
  `none` is *not* an error value of the program.
* Double precision arithmetic (`std::pow`, `+`, `*`, conversions) is a
  parameter of the development, collected in `FloatOps`.
-/

namespace Graphics

/-! ## Machine integers -/

/-- Reduction of a natural number to the range of `uint32_t`. -/
def u32 (n : Nat) : Nat := n % 2 ^ 32

/-- Upper bound (exclusive) of the positive range of `int`. -/
def INT_MAX_succ : Nat := 2 ^ 31

/-! ## ImageData -/

/-- Embedding of `template <class T, uint8_t N> struct ImageData` for `T = uint8_t`.
`data_` is the store `data_.get()` points to.  `from_raw_pointer_` is `none`
when the member was left uninitialised by the constructor. -/
structure ImageData (N : Nat) where
  width_ : Nat
  height_ : Nat
  component_count_ : Nat
  from_raw_pointer_ : Option Bool
  data_ : List Nat
deriving DecidableEq, Repr

namespace ImageData

variable {N : Nat}

/-- The product `width * height * N` as the constructors compute it: all three
factors are (converted to) `uint32_t`, so each multiplication wraps. -/
def componentCount (N width height : Nat) : Nat :=
  u32 (u32 (width * height) * N)

/-- Owning constructor `ImageData(uint32_t width, uint32_t height)`:
`std::make_unique<T[]>(component_count_)` allocates `component_count_`
value-initialised elements; `from_raw_pointer_` has no initialiser. -/
def owned (N width height : Nat) : ImageData N :=
  { width_ := width
    height_ := height
    component_count_ := componentCount N width height
    from_raw_pointer_ := none
    data_ := List.replicate (componentCount N width height) 0 }

/-- Pointer-wrapping constructor `ImageData(uint32_t width, uint32_t height, T* data)`;
`data` is the memory the external pointer refers to, whatever its length. -/
def borrowed (N width height : Nat) (data : List Nat) : ImageData N :=
  { width_ := width
    height_ := height
    component_count_ := componentCount N width height
    from_raw_pointer_ := some true
    data_ := data }

/-- Accessor `width()`. -/
def width (img : ImageData N) : Nat := img.width_

/-- Accessor `height()`. -/
def height (img : ImageData N) : Nat := img.height_

/-- Accessor `size()`. -/
def size (img : ImageData N) : Nat := img.component_count_

/-- Accessor `data()`. -/
def data (img : ImageData N) : List Nat := img.data_

/-- Element offset `(y * width_ + x) * N` of `ReadPixel`, computed in `uint32_t`. -/
def pixelOffset (img : ImageData N) (x y : Nat) : Nat :=
  u32 (u32 (u32 (y * img.width_) + x) * N)

/-- Embedding of `ReadPixel(x, y)`: `memcpy` of `N` elements starting at
`data_.get() + (y * width_ + x) * N`.  There is no comparison of `x` with
`width_` or of `y` with `height_`; the result is `none` (undefined behaviour)
exactly when the copied range leaves the store. -/
def ReadPixel (img : ImageData N) (x y : Nat) : Option (List Nat) :=
  if img.pixelOffset x y + N ≤ img.data_.length then
    some ((img.data_.drop (img.pixelOffset x y)).take N)
  else
    none

/-- Data-model invariant of an image buffer: `component_count_` is the product
`width * height * N` (which therefore fits `uint32_t`, the type it is computed
in) and the store holds at least that many elements. -/
def Valid (img : ImageData N) : Prop :=
  img.width_ * img.height_ * N < 2 ^ 32 ∧
  img.component_count_ = img.width_ * img.height_ * N ∧
  img.component_count_ ≤ img.data_.length

instance (img : ImageData N) : Decidable img.Valid := by
  unfold Valid; infer_instance

end ImageData

/-- What the destruction of an `ImageData` does to the store `data_` points to:
`freed` when the destructor of `data_` deletes it, `released` when
`data_.release()` gave the pointer up beforehand and the store stays untouched. -/
inductive StoreFate where
  | freed
  | released
deriving DecidableEq, Repr

namespace ImageData

variable {N : Nat}

/-- Embedding of `~ImageData()`: `if (from_raw_pointer_) data_.release();`
followed by the destruction of `data_`.  Branching on a member that was never
initialised has no defined result. -/
def destroy (img : ImageData N) : Option StoreFate :=
  match img.from_raw_pointer_ with
  | none => none
  | some true => some StoreFate.released
  | some false => some StoreFate.freed

/-- Effect of destroying `img` on the liveness of the allocation its `data_`
points to; freeing an allocation that is already dead is undefined. -/
def destroyStore (alive : Bool) (img : ImageData N) : Option Bool :=
  match img.destroy with
  | none => none
  | some StoreFate.released => some alive
  | some StoreFate.freed => if alive then some false else none

/-- Liveness of an external allocation after `n` cycles of wrapping it with the
pointer-wrapping constructor and destroying the wrapper. -/
def wrapCycles (N width height : Nat) (data : List Nat) : Nat → Bool → Option Bool
  | 0, alive => some alive
  | n + 1, alive =>
    match destroyStore alive (borrowed N width height data) with
    | none => none
    | some alive2 => wrapCycles N width height data n alive2

end ImageData

/-! ## Floating point -/

/-- The floating point operations the source relies on.  `F` carries both
`float` and `double` values (every `float` is a `double`). -/
structure FloatOps where
  /-- Carrier of the floating point values. -/
  F : Type
  /-- Conversion `uint8_t → double` of an argument of `std::pow`. -/
  ofUInt8 : Nat → F
  /-- Value-initialised `double`. -/
  zero : F
  /-- The literal `.25`. -/
  quarter : F
  /-- Addition of two `double`s. -/
  add : F → F → F
  /-- Multiplication of two `double`s. -/
  mul : F → F → F
  /-- Library function `std::pow`. -/
  pow : F → F → F
  /-- The expression `1 / gamma` on a `float`. -/
  recip : F → F
  /-- Conversion `double → uint8_t` on storing (truncation). -/
  toUInt8 : F → Nat
  /-- Conversion `double → float` of an argument. -/
  toFloat : F → F

/-! ## GenerateMipmap -/

/-- Number of halvings of `n` that keep the value at least `1`, at most `fuel` of them. -/
def floorLog2Loop : Nat → Nat → Nat
  | 0, _ => 0
  | fuel + 1, n => if 2 ≤ n then floorLog2Loop fuel (n / 2) + 1 else 0

/-- Value of `std::floor(std::log2(n))` for an unsigned 32-bit `n ≥ 1`: the
integer binary logarithm (`floorLog2_eq_log` below). -/
def floorLog2 (n : Nat) : Nat := floorLog2Loop n n

/-- Resolution of the loop bound `maxlevel` at the head of `GenerateMipmap`. -/
def resolveMaxLevel (w h : Nat) (maxlevel : Int) : Int :=
  if maxlevel > 0 then
    min maxlevel (Int.ofNat (floorLog2 (max w h)))
  else if maxlevel < 0 then
    Int.ofNat (floorLog2 (max w h)) + maxlevel
  else
    Int.ofNat (floorLog2 (max w h))

/-- The lambda of the "to linear" transform: every component of a sampled
pixel is raised to the power `gamma`. -/
def toLinear (M : FloatOps) (gamma : M.F) (pixel_in : List Nat) : List M.F :=
  pixel_in.map (fun component => M.pow (M.ofUInt8 component) gamma)

/-- The binary operation handed to `std::reduce`: component-wise sum. -/
def addPixels (M : FloatOps) (a b : List M.F) : List M.F :=
  List.zipWith M.add a b

/-- The loop of `std::reduce(first, last, init, op)` on random access iterators as
libstdc++ implements it: while at least four elements remain,
`init = op(init, op(op(first[0], first[1]), op(first[2], first[3])))` and
`first += 4`; the remaining elements are folded in one by one,
`init = op(init, *first)`. -/
def reduceLoop {α : Type} (op : α → α → α) : α → List α → α
  | init, p0 :: p1 :: p2 :: p3 :: rest =>
    reduceLoop op (op init (op (op p0 p1) (op p2 p3))) rest
  | init, rest => rest.foldl op init

/-- The call `std::reduce(pixels_d.begin(), pixels_d.end(), std::array<double, 4>{}, op)`.
The standard leaves the grouping of the additions to the library; the embedding
follows the loop of libstdc++, which for the four pixels yields
`init + ((p0 + p1) + (p2 + p3))`. -/
def sumPixels (M : FloatOps) (pixels_d : List (List M.F)) : List M.F :=
  reduceLoop (addPixels M) (List.replicate 4 M.zero) pixels_d

/-- The lambda of the "to gamma" transform together with the conversion to
`uint8_t` of the assignment into the store. -/
def toGamma (M : FloatOps) (gamma : M.F) (result_d : List M.F) : List Nat :=
  result_d.map (fun component =>
    M.toUInt8 (M.pow (M.mul component M.quarter) (M.recip gamma)))

/-- The four components computed for one destination pixel from the four
sampled pixels. -/
def filterPixel (M : FloatOps) (gamma : M.F) (pixels_ : List (List Nat)) : List Nat :=
  toGamma M gamma (sumPixels M (pixels_.map (toLinear M gamma)))

/-- Writing `values` through the output iterator `store + index`; `none` when
the written range leaves the store. -/
def writeAt (store : List Nat) (index : Nat) (values : List Nat) : Option (List Nat) :=
  if index + values.length ≤ store.length then
    some (store.take index ++ values ++ store.drop (index + values.length))
  else
    none

/-- The array `samplePoints` for the destination pixel `(x, y)`: `x0 = x << 1`,
`x1 = std::min(x0 + 1, pw - 1)` and likewise for `y`, all in `uint32_t`. -/
def samplePoints (pw ph y x : Nat) : List (Nat × Nat) :=
  let y0 := u32 (y <<< 1)
  let y1 := min (u32 (y0 + 1)) (ph - 1)
  let x0 := u32 (x <<< 1)
  let x1 := min (u32 (x0 + 1)) (pw - 1)
  [(x0, y0), (x1, y0), (x0, y1), (x1, y1)]

/-- The sampling transform: `pixels_` holds `sampleData.ReadPixel(p[0], p[1])`
for the four sample points. -/
def samplePixels (sampleData : ImageData 4) (pw ph y x : Nat) : Option (List (List Nat)) :=
  (samplePoints pw ph y x).mapM (fun p => sampleData.ReadPixel p.1 p.2)

/-- The four components the loop body computes for the destination pixel `(x, y)`. -/
def destPixel (M : FloatOps) (gamma : M.F) (sampleData : ImageData 4) (pw ph y x : Nat) :
    Option (List Nat) :=
  (samplePixels sampleData pw ph y x).map (filterPixel M gamma)

/-- Body of the loop over `x`: the state is the store of `mipmap` and `curIndex`
(an `int`, so the increment must stay below `2 ^ 31`). -/
def mipPixel (M : FloatOps) (gamma : M.F) (sampleData : ImageData 4) (pw ph : Nat)
    (y x : Nat) (st : List Nat × Nat) : Option (List Nat × Nat) :=
  match destPixel M gamma sampleData pw ph y x with
  | none => none
  | some values =>
    match writeAt st.1 st.2 values with
    | none => none
    | some store => if st.2 + 4 < INT_MAX_succ then some (store, st.2 + 4) else none

/-- The loop `for (x = 0; x < cw; ++x)`. -/
def mipRow (M : FloatOps) (gamma : M.F) (sampleData : ImageData 4) (pw ph cw : Nat)
    (st : List Nat × Nat) (y : Nat) : Option (List Nat × Nat) :=
  (List.range cw).foldlM (fun s x => mipPixel M gamma sampleData pw ph y x s) st

/-- The loop `for (y = 0; y < ch; ++y)`. -/
def mipRows (M : FloatOps) (gamma : M.F) (sampleData : ImageData 4) (pw ph cw ch : Nat)
    (st : List Nat × Nat) : Option (List Nat × Nat) :=
  (List.range ch).foldlM (mipRow M gamma sampleData pw ph cw) st

/-- Body of the loop over the levels `l`: builds `mipmap` from the previous level
and appends it to `mipmapChain`. -/
def mipLevel (M : FloatOps) (imageData : ImageData 4) (gamma : M.F)
    (mipmapChain : List (ImageData 4)) (l : Nat) : Option (List (ImageData 4)) :=
  let w := imageData.width
  let h := imageData.height
  let prevlevel := l - 1
  let pw := max 1 (w >>> prevlevel)
  let ph := max 1 (h >>> prevlevel)
  let cw := max 1 (w >>> l)
  let ch := max 1 (h >>> l)
  let mipmap := ImageData.owned 4 cw ch
  match (if prevlevel = 0 then some imageData else mipmapChain[prevlevel - 1]?) with
  | none => none
  | some sampleData =>
    match mipRows M gamma sampleData pw ph cw ch (mipmap.data_, 0) with
    | none => none
    | some st => some (mipmapChain ++ [{ mipmap with data_ := st.1 }])

/-- Embedding of `Texture_Impl::GenerateMipmap`.  For `max w h = 0` the source
converts `floor(log2(0))` to `int`, which is undefined. -/
def GenerateMipmap (M : FloatOps) (imageData : ImageData 4) (maxlevel : Int) (gamma : M.F) :
    Option (List (ImageData 4)) :=
  let w := imageData.width
  let h := imageData.height
  if max w h = 0 then
    none
  else
    (List.range' 1 (resolveMaxLevel w h maxlevel).toNat).foldlM
      (mipLevel M imageData gamma) []

/-! ## Texture_Impl -/

/-- Embedding of `enum class TextureWrap`. -/
inductive TextureWrap where
  | Repeat
  | Mirror
  | Clamp
deriving DecidableEq, Repr

/-- Embedding of `enum class TextureFormat`. -/
inductive TextureFormat where
  | RGBA8
  | D32
  | Invalid
deriving DecidableEq, Repr

/-- Embedding of `Vector2i`. -/
structure Vector2i where
  x : Int
  y : Int
deriving DecidableEq, Repr

/-- The OpenGL constants named by `Texture_Impl`. -/
inductive GLenum where
  | GL_DEPTH_COMPONENT32
  | GL_DEPTH_COMPONENT
  | GL_FLOAT
  | GL_RGBA8
  | GL_RGBA
  | GL_UNSIGNED_BYTE
  | GL_TEXTURE_MIN_FILTER
  | GL_TEXTURE_MAG_FILTER
  | GL_LINEAR
  | GL_NEAREST
  | GL_LINEAR_MIPMAP_LINEAR
  | GL_NEAREST_MIPMAP_LINEAR
  | GL_TEXTURE_MAX_ANISOTROPY_EXT
  | GL_TEXTURE_BASE_LEVEL
  | GL_TEXTURE_MAX_LEVEL
  | GL_TEXTURE_WRAP_S
  | GL_TEXTURE_WRAP_T
  | GL_REPEAT
  | GL_MIRRORED_REPEAT
  | GL_CLAMP_TO_EDGE
deriving DecidableEq, Repr

/-- The value argument of `glTexParameteri`: a constant, an integer, or a
`float` member converted at the call. -/
inductive GLParam (F : Type) where
  | const (e : GLenum)
  | int (n : Int)
  | ofFloat (f : F)

/-- The calls `Texture_Impl` issues to the backend, target `GL_TEXTURE_2D`
throughout.  `pixels` is `none` for a null pointer. -/
inductive GLCall (F : Type) where
  | glBindTexture (texture : Nat)
  | glTexImage2D (level : Nat) (internalformat : GLenum) (width height : Int)
      (format type : GLenum) (pixels : Option (List Nat))
  | glTexParameteri (pname : GLenum) (param : GLParam F)
  | glGenerateMipmap

/-- Whether a backend call is an image upload `glTexImage2D`. -/
def GLCall.isTexImage2D {F : Type} : GLCall F → Bool
  | GLCall.glTexImage2D _ _ _ _ _ _ _ => true
  | _ => false

/-- Whether a backend call is the native mip generation `glGenerateMipmap`. -/
def GLCall.isGenerateMipmap {F : Type} : GLCall F → Bool
  | GLCall.glGenerateMipmap => true
  | _ => false

/-- Embedding of the members of `class Texture_Impl`, with the sequence of
backend calls issued so far (`calls`, oldest first).  `m_data` is `none` for
`nullptr`, otherwise the bytes the pointer refers to. -/
structure Texture_Impl (M : FloatOps) where
  m_texture : Nat
  m_wmode : TextureWrap × TextureWrap
  m_format : TextureFormat
  m_size : Vector2i
  m_filter : Bool
  m_mipFilter : Bool
  m_mipmaps : Bool
  m_anisotropic : M.F
  m_data : Option (List Nat)
  m_mipmapChain : List (ImageData 4)
  calls : List (GLCall M.F)

namespace Texture_Impl

variable {M : FloatOps}

/-- `m_filter ? GL_LINEAR : GL_NEAREST`. -/
def plainFilter (t : Texture_Impl M) : GLenum :=
  if t.m_filter then GLenum.GL_LINEAR else GLenum.GL_NEAREST

/-- The `glTexParameteri` calls of `UpdateFilterState` between the two binds. -/
def filterCalls (t : Texture_Impl M) : List (GLCall M.F) :=
  (if !t.m_mipmaps then
    [GLCall.glTexParameteri GLenum.GL_TEXTURE_MIN_FILTER (GLParam.const t.plainFilter),
     GLCall.glTexParameteri GLenum.GL_TEXTURE_MAG_FILTER (GLParam.const t.plainFilter)]
  else
    [(if t.m_mipFilter then
        GLCall.glTexParameteri GLenum.GL_TEXTURE_MIN_FILTER
          (GLParam.const (if t.m_filter then GLenum.GL_LINEAR_MIPMAP_LINEAR
            else GLenum.GL_NEAREST_MIPMAP_LINEAR))
      else
        GLCall.glTexParameteri GLenum.GL_TEXTURE_MIN_FILTER (GLParam.const t.plainFilter)),
     GLCall.glTexParameteri GLenum.GL_TEXTURE_MAG_FILTER (GLParam.const t.plainFilter)])
  ++ [GLCall.glTexParameteri GLenum.GL_TEXTURE_MAX_ANISOTROPY_EXT
        (GLParam.ofFloat t.m_anisotropic)]

/-- Embedding of `UpdateFilterState()`; the constant
`GL_TEXTURE_MAX_ANISOTROPY_EXT` is non-zero. -/
def UpdateFilterState (t : Texture_Impl M) : Texture_Impl M :=
  { t with calls := t.calls ++ [GLCall.glBindTexture t.m_texture] ++ t.filterCalls
      ++ [GLCall.glBindTexture 0] }

/-- The table `wmode[]` of `UpdateWrap`. -/
def wrapConst : TextureWrap → GLenum
  | TextureWrap.Repeat => GLenum.GL_REPEAT
  | TextureWrap.Mirror => GLenum.GL_MIRRORED_REPEAT
  | TextureWrap.Clamp => GLenum.GL_CLAMP_TO_EDGE

/-- Embedding of `UpdateWrap()`. -/
def UpdateWrap (t : Texture_Impl M) : Texture_Impl M :=
  { t with calls := t.calls ++
      [GLCall.glBindTexture t.m_texture,
       GLCall.glTexParameteri GLenum.GL_TEXTURE_WRAP_S (GLParam.const (wrapConst t.m_wmode.1)),
       GLCall.glTexParameteri GLenum.GL_TEXTURE_WRAP_T (GLParam.const (wrapConst t.m_wmode.2)),
       GLCall.glBindTexture 0] }

/-- Embedding of `SetData(Vector2i size, void* pData)`. -/
def SetData (t : Texture_Impl M) (size : Vector2i) (pData : Option (List Nat)) :
    Texture_Impl M :=
  let t1 : Texture_Impl M :=
    { t with
      m_format := TextureFormat.RGBA8
      m_size := size
      m_data := pData
      calls := t.calls ++
        [GLCall.glBindTexture t.m_texture,
         GLCall.glTexImage2D 0 GLenum.GL_RGBA8 size.x size.y GLenum.GL_RGBA
           GLenum.GL_UNSIGNED_BYTE pData,
         GLCall.glBindTexture 0] }
  t1.UpdateFilterState.UpdateWrap

/-- Embedding of `SetFilter(bool enabled, bool mipFiltering, float anisotropic)`
(the `assert` on the anisotropy range is not part of the state). -/
def SetFilter (t : Texture_Impl M) (enabled mipFiltering : Bool) (anisotropic : M.F) :
    Texture_Impl M :=
  UpdateFilterState
    { t with m_mipFilter := mipFiltering, m_filter := enabled, m_anisotropic := anisotropic }

/-- Embedding of `SetWrap(TextureWrap u, TextureWrap v)`. -/
def SetWrap (t : Texture_Impl M) (u v : TextureWrap) : Texture_Impl M :=
  UpdateWrap { t with m_wmode := (u, v) }

/-- Embedding of `SetMipmaps(bool enabled)`. -/
def SetMipmaps (t : Texture_Impl M) (enabled : Bool) : Texture_Impl M :=
  let t1 : Texture_Impl M :=
    if enabled then
      { t with calls := t.calls ++
          [GLCall.glBindTexture t.m_texture, GLCall.glGenerateMipmap, GLCall.glBindTexture 0] }
    else t
  UpdateFilterState { t1 with m_mipmaps := enabled }

/-- The `glTexImage2D` calls of the upload loop of `SetMipmaps(int, double)`. -/
def uploadCalls (chain : List (ImageData 4)) : List (GLCall M.F) :=
  (List.range chain.length).zipWith
    (fun i imageData =>
      GLCall.glTexImage2D (i + 1) GLenum.GL_RGBA8 (Int.ofNat imageData.width)
        (Int.ofNat imageData.height) GLenum.GL_RGBA GLenum.GL_UNSIGNED_BYTE
        (some imageData.data))
    chain

/-- Conversion `int → uint32_t` of a constructor argument. -/
def toU32 (i : Int) : Nat := (i % 2 ^ 32).toNat

/-- Embedding of `SetMipmaps(int maxlevel, double gamma)`.  The base image wraps
`m_data` (a null pointer has no readable element); `gamma` is converted to
`float` for `GenerateMipmap`.  The result is `none` when `GenerateMipmap` is
undefined. -/
def SetMipmapsGamma (t : Texture_Impl M) (maxlevel : Int) (gamma : M.F) :
    Option (Texture_Impl M) :=
  match GenerateMipmap M
      (ImageData.borrowed 4 (toU32 t.m_size.x) (toU32 t.m_size.y) (t.m_data.getD []))
      maxlevel (M.toFloat gamma) with
  | none => none
  | some chain =>
    some (UpdateFilterState
      { t with
        m_mipmapChain := chain
        m_mipmaps := true
        calls := t.calls ++
          [GLCall.glBindTexture t.m_texture,
           GLCall.glTexParameteri GLenum.GL_TEXTURE_BASE_LEVEL (GLParam.int 0),
           GLCall.glTexParameteri GLenum.GL_TEXTURE_MAX_LEVEL
             (GLParam.int (Int.ofNat chain.length))]
          ++ uploadCalls chain ++ [GLCall.glBindTexture 0] })

end Texture_Impl

/-! ## Specification of the filter -/

/-- The value the specification assigns to one destination channel from the
four sampled channel values: `(0.25 * (s00^gamma + s10^gamma + s01^gamma +
s11^gamma))^(1/gamma)` truncated to 8 bits, written with the operations of `M`.
The sum is grouped as the program computes it, `0 + ((s00^gamma + s10^gamma) +
(s01^gamma + s11^gamma))`, the zero being the initial value of the accumulator. -/
def boxFilter (M : FloatOps) (gamma : M.F) (s00 s10 s01 s11 : Nat) : Nat :=
  M.toUInt8 (M.pow
    (M.mul
      (M.add M.zero
        (M.add
          (M.add (M.pow (M.ofUInt8 s00) gamma) (M.pow (M.ofUInt8 s10) gamma))
          (M.add (M.pow (M.ofUInt8 s01) gamma) (M.pow (M.ofUInt8 s11) gamma))))
      M.quarter)
    (M.recip gamma))

/-- Raw value of channel `c` of the pixel at `(x, y)` of an RGBA image: the store
element at offset `(y * width + x) * 4 + c`. -/
def channelAt (img : ImageData 4) (x y c : Nat) : Nat :=
  img.data_.getD ((y * img.width_ + x) * 4 + c) 0

/-- The filter applied to four equal samples `v`: the colour of a level computed
from a flat level of colour `v`. -/
def filterSame (M : FloatOps) (gamma : M.F) (v : Nat) : Nat :=
  boxFilter M gamma v v v v

/-- Exactness of the floating point operations at `gamma = 1`, through a value
map `val` of the floating point values into the rationals.  These are the
facts of binary double precision the exact box filter rests on: the zero is
`0`; a `uint8_t` converts exactly; `pow(x, 1) = x` for the converted bytes and,
with `1 / gamma = 1`, for the quarters of the sums; the sum of small integers
and the product with `0.25` are exact; the conversion to `uint8_t` truncates. -/
def ExactAtOne (M : FloatOps) (gamma : M.F) (val : M.F → ℚ) : Prop :=
  val M.zero = 0 ∧
  (∀ c : Nat, c < 256 → val (M.ofUInt8 c) = (c : ℚ)) ∧
  (∀ (a : M.F) (n : Nat), val a = (n : ℚ) → n < 256 → val (M.pow a gamma) = (n : ℚ)) ∧
  (∀ (a b : M.F) (m n : Nat), val a = (m : ℚ) → val b = (n : ℚ) → m + n ≤ 1020 →
    val (M.add a b) = ((m + n : Nat) : ℚ)) ∧
  (∀ (a : M.F) (n : Nat), val a = (n : ℚ) → n ≤ 1020 →
    val (M.mul a M.quarter) = (n : ℚ) / 4) ∧
  (∀ (a : M.F) (n : Nat), val a = (n : ℚ) / 4 → n ≤ 1020 →
    val (M.pow a (M.recip gamma)) = (n : ℚ) / 4) ∧
  (∀ (a : M.F) (n : Nat), val a = (n : ℚ) / 4 → n ≤ 1020 → M.toUInt8 a = n / 4)

/-- Every channel of every pixel of the image is a byte. -/
def ByteImage (img : ImageData 4) : Prop :=
  ∀ x y c, x < img.width_ → y < img.height_ → c < 4 → channelAt img x y c < 256

/-- The filter relation of the specification between a source image and the
level computed from it: every channel of every destination pixel `(x, y)` is
`boxFilter` of the four source channels at `(x0, y0)`, `(x1, y0)`, `(x0, y1)`,
`(x1, y1)` with `x0 = 2x`, `x1 = min (x0 + 1) (pw - 1)`, `y0 = 2y`,
`y1 = min (y0 + 1) (ph - 1)`, and `(x0, y0)` lies inside the source. -/
def FilteredFrom (M : FloatOps) (gamma : M.F) (src dst : ImageData 4) : Prop :=
  ∀ y, y < dst.height_ → ∀ x, x < dst.width_ → ∀ c, c < 4 →
    2 * x < src.width_ ∧ 2 * y < src.height_ ∧
    dst.data_[(y * dst.width_ + x) * 4 + c]? = some (boxFilter M gamma
      (channelAt src (2 * x) (2 * y) c)
      (channelAt src (min (2 * x + 1) (src.width_ - 1)) (2 * y) c)
      (channelAt src (2 * x) (min (2 * y + 1) (src.height_ - 1)) c)
      (channelAt src (min (2 * x + 1) (src.width_ - 1))
        (min (2 * y + 1) (src.height_ - 1)) c))

/-- The source buffer of level `i + 1`: the base for `i = 0`, else `chain[i - 1]`. -/
def sourceOf (img : ImageData 4) (chain : List (ImageData 4)) (i : Nat) :
    Option (ImageData 4) :=
  if i = 0 then some img else chain[i - 1]?

/-- Invariant of the chain under construction: entry `i` has the dimensions of
level `i + 1`, owns a store of exactly `width * height * 4` elements, and is
filtered from its source buffer. -/
def ChainOK (M : FloatOps) (gamma : M.F) (img : ImageData 4) (chain : List (ImageData 4)) :
    Prop :=
  ∀ i, i < chain.length → ∃ src dst,
    sourceOf img chain i = some src ∧ chain[i]? = some dst ∧
    src.width_ = max 1 (img.width_ >>> i) ∧
    src.height_ = max 1 (img.height_ >>> i) ∧
    dst.width_ = max 1 (img.width_ >>> (i + 1)) ∧
    dst.height_ = max 1 (img.height_ >>> (i + 1)) ∧
    dst.Valid ∧ dst.data_.length = dst.width_ * dst.height_ * 4 ∧
    FilteredFrom M gamma src dst

/-! ## A float model for evaluation -/

/-- A computable instance of `FloatOps` used to evaluate the definitions on
concrete inputs: values are counted in quarters, every exponent acts as `1`. -/
def quarterOps : FloatOps :=
  { F := Nat
    ofUInt8 := fun c => 4 * c
    zero := 0
    quarter := 1
    add := fun a b => a + b
    mul := fun a _ => a / 4
    pow := fun a _ => a
    recip := fun g => g
    toUInt8 := fun a => a / 4
    toFloat := fun g => g }

/-- A second computable instance of `FloatOps`: as `quarterOps`, except that the
value handed to the final conversion lies just below the exact one, so that the
truncation to `uint8_t` loses one unit (for a non-zero value); the conversion
yields a byte. -/
def lossyOps : FloatOps :=
  { F := Nat
    ofUInt8 := fun c => 4 * c
    zero := 0
    quarter := 1
    add := fun a b => a + b
    mul := fun a _ => a / 4
    pow := fun a _ => a
    recip := fun g => g
    toUInt8 := fun a => ((a - 1) / 4) % 256
    toFloat := fun g => g }

/-! ## Example inputs -/

/-- A store of `n` pixels of one RGBA colour. -/
def flatStore (n : Nat) (color : List Nat) : List Nat :=
  (List.replicate n color).flatten

/-- The 4x4 base image with every pixel `(200, 200, 200, 255)`, wrapped as
`SetMipmaps` wraps `m_data`. -/
def flat4x4 : ImageData 4 := ImageData.borrowed 4 4 4 (flatStore 16 [200, 200, 200, 255])

/-- A 3x5 base image whose store holds the bytes `0, 1, ..., 59`. -/
def ramp3x5 : ImageData 4 := ImageData.borrowed 4 3 5 (List.range 60)

/-- A 2x2 base image whose store holds the bytes `0, 1, ..., 15`. -/
def ramp2x2 : ImageData 4 := ImageData.borrowed 4 2 2 (List.range 16)

/-- A texture object right after creation (handle `1`, members at their default
initialisers, anisotropy `1.0` in the units of `quarterOps`, no call issued). -/
def freshTexture : Texture_Impl quarterOps :=
  { m_texture := 1
    m_wmode := (TextureWrap.Repeat, TextureWrap.Repeat)
    m_format := TextureFormat.Invalid
    m_size := { x := 0, y := 0 }
    m_filter := true
    m_mipFilter := true
    m_mipmaps := false
    m_anisotropic := (4 : Nat)
    m_data := none
    m_mipmapChain := []
    calls := [] }

/-! ## Theorems: logarithm and pixel reads -/

theorem floorLog2Loop_eq_log (fuel n : Nat) (h : n ≤ fuel) :
    floorLog2Loop fuel n = Nat.log 2 n := by
  induction fuel generalizing n with
  | zero =>
    have : n = 0 := by omega
    subst this
    simp [floorLog2Loop]
  | succ fuel ih =>
    unfold floorLog2Loop
    split
    · rename_i h2
      rw [ih (n / 2) (by omega)]
      rw [Nat.log_of_one_lt_of_le (by norm_num) h2]
    · rename_i h2
      rw [Nat.log_of_lt (by omega)]

theorem floorLog2_eq_log (n : Nat) : floorLog2 n = Nat.log 2 n :=
  floorLog2Loop_eq_log n n le_rfl

namespace ImageData
variable {N : Nat}

theorem pixelOffset_eq_mod (img : ImageData N) (x y : Nat) :
    img.pixelOffset x y = ((y * img.width_ + x) * N) % 2 ^ 32 := by
  unfold pixelOffset u32
  rw [Nat.mod_mul_mod, Nat.mul_mod (y * img.width_ % 2 ^ 32 + x), Nat.mod_add_mod,
    ← Nat.mul_mod]

theorem index_lt_of_lt {w h x y : Nat} (hx : x < w) (hy : y < h) : y * w + x < w * h := by
  have : (y + 1) * w ≤ h * w := Nat.mul_le_mul_right w hy
  have e : (y + 1) * w = y * w + w := by ring
  rw [Nat.mul_comm w h]
  omega

theorem offset_add_le (img : ImageData N) {x y : Nat} (hx : x < img.width_) (hy : y < img.height_) :
    (y * img.width_ + x) * N + N ≤ img.width_ * img.height_ * N := by
  have h1 := index_lt_of_lt hx hy
  have : (y * img.width_ + x + 1) * N ≤ img.width_ * img.height_ * N :=
    Nat.mul_le_mul_right N h1
  have e : (y * img.width_ + x + 1) * N = (y * img.width_ + x) * N + N := by ring
  omega

theorem pixelOffset_of_valid (img : ImageData N) (hv : img.Valid) {x y : Nat}
    (hx : x < img.width_) (hy : y < img.height_) :
    img.pixelOffset x y = (y * img.width_ + x) * N := by
  rw [pixelOffset_eq_mod]
  have := img.offset_add_le hx hy
  exact Nat.mod_eq_of_lt (by have := hv.1; omega)

theorem ReadPixel_in_range_aux (img : ImageData N) (hv : img.Valid) (x y : Nat)
    (hx : x < img.width_) (hy : y < img.height_) :
    ∃ px, img.ReadPixel x y = some px ∧ px.length = N ∧
      ∀ k, k < N →
        (y * img.width_ + x) * N + k < img.size ∧
        px[k]? = img.data_[(y * img.width_ + x) * N + k]? ∧
        (img.data_[(y * img.width_ + x) * N + k]?).isSome = true := by
  have hoff := img.pixelOffset_of_valid hv hx hy
  have hle := img.offset_add_le hx hy
  obtain ⟨h32, hcc, hlen⟩ := hv
  have hin : (y * img.width_ + x) * N + N ≤ img.data_.length := by omega
  refine ⟨(img.data_.drop ((y * img.width_ + x) * N)).take N, ?_, ?_, ?_⟩
  · unfold ReadPixel
    rw [hoff, if_pos hin]
  · rw [List.length_take, List.length_drop]; omega
  · intro k hk
    refine ⟨by unfold size; omega, ?_, ?_⟩
    · rw [List.getElem?_take_of_lt hk, List.getElem?_drop]
    · rw [List.getElem?_eq_getElem (by omega)]; rfl

end ImageData

/-! ## Theorems: the filter of one pixel -/

theorem list_length_four {α : Type} (l : List α) (h : l.length = 4) :
    ∃ a b c d, l = [a, b, c, d] := by
  match l, h with
  | [a, b, c, d], _ => exact ⟨a, b, c, d, rfl⟩

theorem filterPixel_length (M : FloatOps) (gamma : M.F) (p0 p1 p2 p3 : List Nat)
    (h0 : p0.length = 4) (h1 : p1.length = 4) (h2 : p2.length = 4) (h3 : p3.length = 4) :
    (filterPixel M gamma [p0, p1, p2, p3]).length = 4 := by
  obtain ⟨a0, b0, c0, d0, rfl⟩ := list_length_four p0 h0
  obtain ⟨a1, b1, c1, d1, rfl⟩ := list_length_four p1 h1
  obtain ⟨a2, b2, c2, d2, rfl⟩ := list_length_four p2 h2
  obtain ⟨a3, b3, c3, d3, rfl⟩ := list_length_four p3 h3
  simp [filterPixel, toGamma, sumPixels, reduceLoop, addPixels, toLinear, List.replicate]

theorem filterPixel_getElem (M : FloatOps) (gamma : M.F) (p0 p1 p2 p3 : List Nat)
    (h0 : p0.length = 4) (h1 : p1.length = 4) (h2 : p2.length = 4) (h3 : p3.length = 4)
    (c : Nat) (hc : c < 4) (s00 s10 s01 s11 : Nat)
    (e0 : p0[c]? = some s00) (e1 : p1[c]? = some s10)
    (e2 : p2[c]? = some s01) (e3 : p3[c]? = some s11) :
    (filterPixel M gamma [p0, p1, p2, p3])[c]? = some (boxFilter M gamma s00 s10 s01 s11) := by
  obtain ⟨a0, b0, c0, d0, rfl⟩ := list_length_four p0 h0
  obtain ⟨a1, b1, c1, d1, rfl⟩ := list_length_four p1 h1
  obtain ⟨a2, b2, c2, d2, rfl⟩ := list_length_four p2 h2
  obtain ⟨a3, b3, c3, d3, rfl⟩ := list_length_four p3 h3
  have hcases : c = 0 ∨ c = 1 ∨ c = 2 ∨ c = 3 := by omega
  rcases hcases with rfl | rfl | rfl | rfl <;>
    simp at e0 e1 e2 e3 <;> subst e0 e1 e2 e3 <;>
    simp [filterPixel, toGamma, sumPixels, reduceLoop, addPixels, toLinear, List.replicate,
      boxFilter]

theorem samplePixels_eq (sampleData : ImageData 4) (pw ph y x : Nat) :
    samplePixels sampleData pw ph y x =
      match sampleData.ReadPixel (u32 (x <<< 1)) (u32 (y <<< 1)),
        sampleData.ReadPixel (min (u32 (u32 (x <<< 1) + 1)) (pw - 1)) (u32 (y <<< 1)),
        sampleData.ReadPixel (u32 (x <<< 1)) (min (u32 (u32 (y <<< 1) + 1)) (ph - 1)),
        sampleData.ReadPixel (min (u32 (u32 (x <<< 1) + 1)) (pw - 1))
          (min (u32 (u32 (y <<< 1) + 1)) (ph - 1)) with
      | some p00, some p10, some p01, some p11 => some [p00, p10, p01, p11]
      | _, _, _, _ => none := by
  simp only [samplePixels, samplePoints, List.mapM_cons, List.mapM_nil]
  cases sampleData.ReadPixel (u32 (x <<< 1)) (u32 (y <<< 1)) <;>
  cases sampleData.ReadPixel (min (u32 (u32 (x <<< 1) + 1)) (pw - 1)) (u32 (y <<< 1)) <;>
  cases sampleData.ReadPixel (u32 (x <<< 1)) (min (u32 (u32 (y <<< 1) + 1)) (ph - 1)) <;>
  cases sampleData.ReadPixel (min (u32 (u32 (x <<< 1) + 1)) (pw - 1))
          (min (u32 (u32 (y <<< 1) + 1)) (ph - 1)) <;> rfl

/-! ## Theorems: sampling -/

theorem u32_of_lt {n : Nat} (h : n < 2 ^ 32) : u32 n = n := Nat.mod_eq_of_lt h

theorem channel_of_read (src : ImageData 4) (hv : src.Valid) (x y : Nat)
    (hx : x < src.width_) (hy : y < src.height_) :
    ∃ px, src.ReadPixel x y = some px ∧ px.length = 4 ∧
      ∀ c, c < 4 → px[c]? = some (channelAt src x y c) := by
  obtain ⟨px, h1, h2, h3⟩ := src.ReadPixel_in_range_aux hv x y hx hy
  refine ⟨px, h1, h2, ?_⟩
  intro c hc
  obtain ⟨_, e, s⟩ := h3 c hc
  rw [e]
  unfold channelAt
  rw [List.getD_eq_getElem?_getD]
  cases hh : src.data_[(y * src.width_ + x) * 4 + c]? with
  | none => rw [hh] at s; simp at s
  | some v => simp

theorem destPixel_spec (M : FloatOps) (gamma : M.F) (src : ImageData 4) (hv : src.Valid)
    (x y : Nat) (hx : 2 * x < src.width_) (hy : 2 * y < src.height_) :
    ∃ v, destPixel M gamma src src.width_ src.height_ y x = some v ∧ v.length = 4 ∧
      ∀ c, c < 4 → v[c]? = some (boxFilter M gamma
        (channelAt src (2 * x) (2 * y) c)
        (channelAt src (min (2 * x + 1) (src.width_ - 1)) (2 * y) c)
        (channelAt src (2 * x) (min (2 * y + 1) (src.height_ - 1)) c)
        (channelAt src (min (2 * x + 1) (src.width_ - 1))
          (min (2 * y + 1) (src.height_ - 1)) c)) := by
  have hb := hv.1
  have hw : src.width_ < 2 ^ 30 := by
    by_contra hcon
    have : 2 ^ 30 * 1 ≤ src.width_ * src.height_ := Nat.mul_le_mul (by omega) (by omega)
    omega
  have hh : src.height_ < 2 ^ 30 := by
    by_contra hcon
    have : 1 * 2 ^ 30 ≤ src.width_ * src.height_ := Nat.mul_le_mul (by omega) (by omega)
    omega
  have ex0 : u32 (x <<< 1) = 2 * x := by
    rw [Nat.shiftLeft_eq, u32_of_lt (by omega)]; omega
  have ey0 : u32 (y <<< 1) = 2 * y := by
    rw [Nat.shiftLeft_eq, u32_of_lt (by omega)]; omega
  have ex1 : u32 (2 * x + 1) = 2 * x + 1 := u32_of_lt (by omega)
  have ey1 : u32 (2 * y + 1) = 2 * y + 1 := u32_of_lt (by omega)
  have hx1 : min (2 * x + 1) (src.width_ - 1) < src.width_ := by
    have := Nat.min_le_right (2 * x + 1) (src.width_ - 1); omega
  have hy1 : min (2 * y + 1) (src.height_ - 1) < src.height_ := by
    have := Nat.min_le_right (2 * y + 1) (src.height_ - 1); omega
  obtain ⟨p00, r00, l00, c00⟩ := channel_of_read src hv (2 * x) (2 * y) hx hy
  obtain ⟨p10, r10, l10, c10⟩ := channel_of_read src hv _ (2 * y) hx1 hy
  obtain ⟨p01, r01, l01, c01⟩ := channel_of_read src hv (2 * x) _ hx hy1
  obtain ⟨p11, r11, l11, c11⟩ := channel_of_read src hv _ _ hx1 hy1
  refine ⟨filterPixel M gamma [p00, p10, p01, p11], ?_, ?_, ?_⟩
  · unfold destPixel
    rw [samplePixels_eq, ex0, ey0, ex1, ey1, r00, r10, r01, r11]
    rfl
  · exact filterPixel_length M gamma _ _ _ _ l00 l10 l01 l11
  · intro c hc
    exact filterPixel_getElem M gamma _ _ _ _ l00 l10 l01 l11 c hc _ _ _ _
      (c00 c hc) (c10 c hc) (c01 c hc) (c11 c hc)

/-! ## Theorems: the loops over one level -/

theorem writeAt_spec (store : List Nat) (cur : Nat) (v : List Nat) (hv : v.length = 4)
    (hlen : cur + 4 ≤ store.length) :
    ∃ s, writeAt store cur v = some s ∧ s.length = store.length ∧
      (∀ i, i < cur ∨ cur + 4 ≤ i → s[i]? = store[i]?) ∧
      (∀ c, c < 4 → s[cur + c]? = v[c]?) := by
  refine ⟨store.take cur ++ v ++ store.drop (cur + 4), ?_, ?_, ?_, ?_⟩
  · unfold writeAt
    rw [hv, if_pos hlen]
  · simp only [List.length_append, List.length_take, List.length_drop, hv]
    omega
  · intro i hi
    have ht : (store.take cur).length = cur := by
      rw [List.length_take]; omega
    rcases hi with hi | hi
    · rw [List.append_assoc, List.getElem?_append_left (by omega), List.getElem?_take_of_lt hi]
    · rw [List.getElem?_append_right (by simp only [List.length_append, ht, hv]; omega)]
      simp only [List.length_append, ht, hv, List.getElem?_drop]
      congr 1
      omega
  · intro c hc
    have ht : (store.take cur).length = cur := by
      rw [List.length_take]; omega
    rw [List.append_assoc, List.getElem?_append_right (by omega), ht,
      List.getElem?_append_left (by omega)]
    congr 1
    omega

theorem mipPixel_spec (M : FloatOps) (gamma : M.F) (src : ImageData 4) (pw ph y x : Nat)
    (store : List Nat) (cur : Nat) (v : List Nat)
    (hd : destPixel M gamma src pw ph y x = some v) (hv : v.length = 4)
    (hlen : cur + 4 ≤ store.length) (hint : cur + 4 < 2 ^ 31) :
    ∃ s, mipPixel M gamma src pw ph y x (store, cur) = some (s, cur + 4) ∧
      s.length = store.length ∧
      (∀ i, i < cur ∨ cur + 4 ≤ i → s[i]? = store[i]?) ∧
      (∀ c, c < 4 → s[cur + c]? = v[c]?) := by
  obtain ⟨s, hw, h1, h2, h3⟩ := writeAt_spec store cur v hv hlen
  refine ⟨s, ?_, h1, h2, h3⟩
  unfold mipPixel
  simp only [hd, hw, INT_MAX_succ, if_pos hint]

theorem mipRow_spec (M : FloatOps) (gamma : M.F) (src : ImageData 4) (pw ph y : Nat)
    (n : Nat) (store : List Nat) (cur : Nat)
    (hd : ∀ x, x < n → ∃ v, destPixel M gamma src pw ph y x = some v ∧ v.length = 4)
    (hlen : cur + 4 * n ≤ store.length) (hint : cur + 4 * n < 2 ^ 31) :
    ∃ s, mipRow M gamma src pw ph n (store, cur) y = some (s, cur + 4 * n) ∧
      s.length = store.length ∧
      (∀ i, i < cur ∨ cur + 4 * n ≤ i → s[i]? = store[i]?) ∧
      (∀ x, x < n → ∀ v, destPixel M gamma src pw ph y x = some v →
        ∀ c, c < 4 → s[cur + 4 * x + c]? = v[c]?) := by
  induction n with
  | zero =>
    refine ⟨store, ?_, rfl, fun _ _ => rfl, ?_⟩
    · simp [mipRow]
    · intro x hx; omega
  | succ n ih =>
    obtain ⟨s, hs, hl, hout, hin⟩ := ih (fun x hx => hd x (by omega)) (by omega) (by omega)
    obtain ⟨v, hv, hv4⟩ := hd n (by omega)
    obtain ⟨s2, hs2, hl2, hout2, hin2⟩ :=
      mipPixel_spec M gamma src pw ph y n s (cur + 4 * n) v hv hv4 (by omega) (by omega)
    refine ⟨s2, ?_, by omega, ?_, ?_⟩
    · unfold mipRow at hs ⊢
      rw [List.range_succ, List.foldlM_append, hs]
      simp only [Option.bind_eq_bind, Option.some_bind, List.foldlM_cons, List.foldlM_nil]
      rw [hs2]
      simp only [Option.bind_eq_bind, Option.some_bind]
      rfl
    · intro i hi
      rw [hout2 i (by omega), hout i (by omega)]
    · intro x hx w hw c hc
      by_cases hxn : x = n
      · subst hxn
        rw [hv] at hw
        cases hw
        have := hin2 c hc
        rw [← this]
      · rw [hout2 _ (by omega)]
        exact hin x (by omega) w hw c hc

theorem mipRows_spec (M : FloatOps) (gamma : M.F) (src : ImageData 4) (pw ph cw : Nat)
    (n : Nat) (store : List Nat)
    (hd : ∀ y, y < n → ∀ x, x < cw →
      ∃ v, destPixel M gamma src pw ph y x = some v ∧ v.length = 4)
    (hlen : 4 * (n * cw) ≤ store.length) (hint : 4 * (n * cw) < 2 ^ 31) :
    ∃ s, mipRows M gamma src pw ph cw n (store, 0) = some (s, 4 * (n * cw)) ∧
      s.length = store.length ∧
      (∀ i, 4 * (n * cw) ≤ i → s[i]? = store[i]?) ∧
      (∀ y, y < n → ∀ x, x < cw → ∀ v, destPixel M gamma src pw ph y x = some v →
        ∀ c, c < 4 → s[(y * cw + x) * 4 + c]? = v[c]?) := by
  induction n with
  | zero =>
    refine ⟨store, ?_, rfl, fun _ _ => rfl, ?_⟩
    · simp [mipRows]
    · intro y hy; omega
  | succ n ih =>
    have e : (n + 1) * cw = n * cw + cw := Nat.succ_mul n cw
    rw [e] at hlen hint
    obtain ⟨s, hs, hl, hout, hin⟩ := ih (fun y hy => hd y (by omega)) (by omega) (by omega)
    obtain ⟨s2, hs2, hl2, hout2, hin2⟩ :=
      mipRow_spec M gamma src pw ph n cw s (4 * (n * cw)) (hd n (by omega))
        (by omega) (by omega)
    refine ⟨s2, ?_, by omega, ?_, ?_⟩
    · unfold mipRows at hs ⊢
      rw [List.range_succ, List.foldlM_append, hs]
      simp only [Option.bind_eq_bind, Option.some_bind, List.foldlM_cons, List.foldlM_nil]
      rw [hs2, e]
      simp only [Option.bind_eq_bind, Option.some_bind]
      have : 4 * (n * cw) + 4 * cw = 4 * (n * cw + cw) := by omega
      rw [this]
      rfl
    · intro i hi
      rw [e] at hi
      rw [hout2 i (by omega), hout i (by omega)]
    · intro y hy x hx w hw c hc
      by_cases hyn : y = n
      · subst hyn
        have := hin2 x hx w hw c hc
        rw [← this]
        congr 1
        omega
      · have hy2 : y < n := by omega
        have hb : (y + 1) * cw ≤ n * cw := Nat.mul_le_mul_right cw hy2
        rw [Nat.succ_mul] at hb
        rw [hout2 _ (by omega)]
        exact hin y hy2 x hx w hw c hc

/-! ## Theorems: one level -/

theorem half_dims (a : Nat) :
    max 1 (a / 2) ≤ max 1 a ∧ (∀ x, x < max 1 (a / 2) → 2 * x < max 1 a) ∧
      (2 ≤ a → 2 * max 1 (a / 2) ≤ max 1 a) := by
  refine ⟨by omega, fun x hx => by omega, fun h => by omega⟩

theorem shiftRight_pred (w l : Nat) (hl : 1 ≤ l) : w >>> l = (w >>> (l - 1)) / 2 := by
  obtain ⟨k, rfl⟩ : ∃ k, l = k + 1 := ⟨l - 1, by omega⟩
  rw [Nat.shiftRight_succ]
  rfl

theorem two_le_shiftRight_pred (w l : Nat) (hl : 1 ≤ l) (h : 2 ^ l ≤ w) :
    2 ≤ w >>> (l - 1) := by
  obtain ⟨k, rfl⟩ : ∃ k, l = k + 1 := ⟨l - 1, by omega⟩
  rw [Nat.add_sub_cancel, Nat.shiftRight_eq_div_pow, Nat.le_div_iff_mul_le (by positivity)]
  rw [pow_succ] at h
  omega

theorem level_dims (w h l : Nat) (hl : 1 ≤ l) (hpow : 2 ^ l ≤ max w h) :
    2 * (max 1 (w >>> l) * max 1 (h >>> l)) ≤
      max 1 (w >>> (l - 1)) * max 1 (h >>> (l - 1)) := by
  rw [shiftRight_pred w l hl, shiftRight_pred h l hl]
  have hw := half_dims (w >>> (l - 1))
  have hh := half_dims (h >>> (l - 1))
  rcases Nat.le_total w h with hwh | hwh
  · rw [Nat.max_eq_right hwh] at hpow
    have := hh.2.2 (two_le_shiftRight_pred h l hl hpow)
    calc 2 * (max 1 (w >>> (l - 1) / 2) * max 1 (h >>> (l - 1) / 2))
        = max 1 (w >>> (l - 1) / 2) * (2 * max 1 (h >>> (l - 1) / 2)) := by ring
      _ ≤ max 1 (w >>> (l - 1)) * max 1 (h >>> (l - 1)) := Nat.mul_le_mul hw.1 this
  · rw [Nat.max_eq_left hwh] at hpow
    have := hw.2.2 (two_le_shiftRight_pred w l hl hpow)
    calc 2 * (max 1 (w >>> (l - 1) / 2) * max 1 (h >>> (l - 1) / 2))
        = (2 * max 1 (w >>> (l - 1) / 2)) * max 1 (h >>> (l - 1) / 2) := by ring
      _ ≤ max 1 (w >>> (l - 1)) * max 1 (h >>> (l - 1)) := Nat.mul_le_mul this hh.1

theorem componentCount_of_lt (cw ch : Nat) (h : cw * ch * 4 < 2 ^ 32) :
    ImageData.componentCount 4 cw ch = cw * ch * 4 := by
  unfold ImageData.componentCount
  rw [u32_of_lt (n := cw * ch) (by omega), u32_of_lt h]

theorem buildLevel_spec (M : FloatOps) (gamma : M.F) (src : ImageData 4) (hv : src.Valid)
    (cw ch : Nat) (hcw : ∀ x, x < cw → 2 * x < src.width_)
    (hch : ∀ y, y < ch → 2 * y < src.height_)
    (hsz : 2 * (cw * ch) ≤ src.width_ * src.height_) :
    ∃ st, mipRows M gamma src src.width_ src.height_ cw ch
        ((ImageData.owned 4 cw ch).data_, 0) = some st ∧
      st.1.length = cw * ch * 4 ∧
      ImageData.Valid
        ({ ImageData.owned 4 cw ch with data_ := st.1 } : ImageData 4) ∧
      FilteredFrom M gamma src
        ({ ImageData.owned 4 cw ch with data_ := st.1 } : ImageData 4) := by
  have hb := hv.1
  have hlt : cw * ch * 4 < 2 ^ 31 := by omega
  have hcc := componentCount_of_lt cw ch (by omega)
  have hstore : ((ImageData.owned 4 cw ch).data_).length = cw * ch * 4 := by
    simp only [ImageData.owned, List.length_replicate, hcc]
  have hcomm : ch * cw = cw * ch := Nat.mul_comm ch cw
  obtain ⟨s, hs, hl, _, hin⟩ := mipRows_spec M gamma src src.width_ src.height_ cw ch
    (ImageData.owned 4 cw ch).data_
    (fun y hy x hx => by
      obtain ⟨v, h1, h2, _⟩ := destPixel_spec M gamma src hv x y (hcw x hx) (hch y hy)
      exact ⟨v, h1, h2⟩)
    (by rw [hstore, hcomm]; omega) (by rw [hcomm]; omega)
  refine ⟨(s, 4 * (ch * cw)), hs, by rw [hl, hstore], ?_, ?_⟩
  · refine ⟨?_, ?_, ?_⟩
    · show cw * ch * 4 < 2 ^ 32
      omega
    · exact hcc
    · show ImageData.componentCount 4 cw ch ≤ s.length
      rw [hl, hstore, hcc]
  · intro y hy x hx c hc
    obtain ⟨v, h1, _, h3⟩ := destPixel_spec M gamma src hv x y (hcw x hx) (hch y hy)
    refine ⟨hcw x hx, hch y hy, ?_⟩
    have := hin y hy x hx v h1 c hc
    show s[(y * cw + x) * 4 + c]? = _
    rw [this, h3 c hc]

theorem sourceOf_append (img : ImageData 4) (chain : List (ImageData 4)) (d : ImageData 4)
    (i : Nat) (hi : i ≤ chain.length) :
    sourceOf img (chain ++ [d]) i = sourceOf img chain i := by
  unfold sourceOf
  by_cases h : i = 0
  · simp [h]
  · simp only [h, if_false]
    rw [List.getElem?_append_left (by omega)]

theorem source_spec (M : FloatOps) (gamma : M.F) (img : ImageData 4) (hv : img.Valid)
    (hw : 1 ≤ img.width_) (hh : 1 ≤ img.height_) (chain : List (ImageData 4))
    (hinv : ChainOK M gamma img chain) :
    ∃ src, sourceOf img chain chain.length = some src ∧ src.Valid ∧
      src.width_ = max 1 (img.width_ >>> chain.length) ∧
      src.height_ = max 1 (img.height_ >>> chain.length) := by
  by_cases h0 : chain.length = 0
  · refine ⟨img, ?_, hv, ?_, ?_⟩
    · simp [sourceOf, h0]
    · rw [h0, Nat.shiftRight_zero]; omega
    · rw [h0, Nat.shiftRight_zero]; omega
  · obtain ⟨_, dst, _, hd, _, _, dw, dh, dv, _, _⟩ := hinv (chain.length - 1) (by omega)
    have e : chain.length - 1 + 1 = chain.length := by omega
    rw [e] at dw dh
    refine ⟨dst, ?_, dv, dw, dh⟩
    simp only [sourceOf, h0, if_false]
    exact hd

theorem mipLevel_spec (M : FloatOps) (gamma : M.F) (img : ImageData 4) (hv : img.Valid)
    (hw : 1 ≤ img.width_) (hh : 1 ≤ img.height_) (chain : List (ImageData 4))
    (hpow : 2 ^ (chain.length + 1) ≤ max img.width_ img.height_)
    (hinv : ChainOK M gamma img chain) :
    ∃ dst, mipLevel M img gamma chain (chain.length + 1) = some (chain ++ [dst]) ∧
      ChainOK M gamma img (chain ++ [dst]) := by
  obtain ⟨src, hsrc, sv, sw, sh⟩ := source_spec M gamma img hv hw hh chain hinv
  have hl : 1 ≤ chain.length + 1 := by omega
  have hdim := level_dims img.width_ img.height_ (chain.length + 1) hl hpow
  have e1 : chain.length + 1 - 1 = chain.length := by omega
  rw [e1, ← sw, ← sh] at hdim
  have hcw : ∀ x, x < max 1 (img.width_ >>> (chain.length + 1)) → 2 * x < src.width_ := by
    intro x hx
    rw [shiftRight_pred _ _ hl, e1] at hx
    rw [sw]
    exact (half_dims _).2.1 x hx
  have hch : ∀ y, y < max 1 (img.height_ >>> (chain.length + 1)) → 2 * y < src.height_ := by
    intro y hy
    rw [shiftRight_pred _ _ hl, e1] at hy
    rw [sh]
    exact (half_dims _).2.1 y hy
  obtain ⟨st, hst, hlen, dv, df⟩ := buildLevel_spec M gamma src sv _ _ hcw hch hdim
  refine ⟨{ ImageData.owned 4 (max 1 (img.width_ >>> (chain.length + 1)))
      (max 1 (img.height_ >>> (chain.length + 1))) with data_ := st.1 }, ?_, ?_⟩
  · unfold mipLevel
    simp only [e1, ImageData.width, ImageData.height]
    have hs : (if chain.length = 0 then some img else chain[chain.length - 1]?) = some src :=
      hsrc
    rw [hs]
    simp only
    rw [← sw, ← sh, hst]
  · intro i hi
    rw [List.length_append, List.length_singleton] at hi
    by_cases hic : i < chain.length
    · obtain ⟨s, d, h1, h2, h3⟩ := hinv i hic
      refine ⟨s, d, ?_, ?_, h3⟩
      · rw [sourceOf_append _ _ _ _ (by omega)]; exact h1
      · rw [List.getElem?_append_left hic]; exact h2
    · have hie : i = chain.length := by omega
      subst hie
      refine ⟨src, _, ?_, ?_, sw, sh, rfl, rfl, dv, hlen, df⟩
      · rw [sourceOf_append _ _ _ _ (by omega)]; exact hsrc
      · rw [List.getElem?_append_right (by omega)]
        simp

/-! ## Theorems: the whole chain -/

theorem levels_spec (M : FloatOps) (gamma : M.F) (img : ImageData 4) (hv : img.Valid)
    (hw : 1 ≤ img.width_) (hh : 1 ≤ img.height_) (n : Nat)
    (hn : 2 ^ n ≤ max img.width_ img.height_) :
    ∃ chain, (List.range' 1 n).foldlM (mipLevel M img gamma) [] = some chain ∧
      chain.length = n ∧ ChainOK M gamma img chain := by
  induction n with
  | zero =>
    refine ⟨[], rfl, rfl, ?_⟩
    intro i hi
    simp at hi
  | succ n ih =>
    have h2 : 2 ^ n ≤ 2 ^ (n + 1) := Nat.pow_le_pow_right (by norm_num) (by omega)
    obtain ⟨chain, hc, hlen, hinv⟩ := ih (by omega)
    obtain ⟨dst, hd, hinv2⟩ :=
      mipLevel_spec M gamma img hv hw hh chain (by rw [hlen]; exact hn) hinv
    refine ⟨chain ++ [dst], ?_, by simp [hlen], hinv2⟩
    rw [List.range'_1_concat, List.foldlM_append, hc]
    simp only [Option.bind_eq_bind, Option.some_bind, List.foldlM_cons, List.foldlM_nil]
    rw [Nat.add_comm 1 n, ← hlen, hd]
    rfl

theorem resolveMaxLevel_le (w h : Nat) (maxlevel : Int) :
    (resolveMaxLevel w h maxlevel).toNat ≤ Nat.log 2 (max w h) := by
  unfold resolveMaxLevel
  rw [floorLog2_eq_log]
  split_ifs <;> simp only [Int.ofNat_eq_coe] <;> omega

theorem GenerateMipmap_spec (M : FloatOps) (gamma : M.F) (img : ImageData 4) (hv : img.Valid)
    (hw : 1 ≤ img.width_) (hh : 1 ≤ img.height_) (maxlevel : Int) :
    ∃ chain, GenerateMipmap M img maxlevel gamma = some chain ∧
      chain.length = (resolveMaxLevel img.width_ img.height_ maxlevel).toNat ∧
      ChainOK M gamma img chain := by
  have hle := resolveMaxLevel_le img.width_ img.height_ maxlevel
  have hpow : 2 ^ (resolveMaxLevel img.width_ img.height_ maxlevel).toNat ≤
      max img.width_ img.height_ :=
    le_trans (Nat.pow_le_pow_right (by norm_num) hle) (Nat.pow_log_le_self 2 (by omega))
  obtain ⟨chain, hc, hlen, hinv⟩ := levels_spec M gamma img hv hw hh _ hpow
  refine ⟨chain, ?_, hlen, hinv⟩
  unfold GenerateMipmap
  simp only [ImageData.width, ImageData.height]
  rw [if_neg (by omega)]
  exact hc

/-! ## Chain length (C1, C2, C3) -/

/-- C1: for a base image with `width ≥ 1` and `height ≥ 1` (an image buffer
satisfying the data-model invariant) and every `gamma`, `GenerateMipmap` with
`maxlevel = 0` returns a chain of length exactly `floor(log2(max(width, height)))`;
a 1x1 base gives the empty chain. -/
theorem GenerateMipmap_length_zero (M : FloatOps) (gamma : M.F) (img : ImageData 4)
    (hv : img.Valid) (hw : 1 ≤ img.width) (hh : 1 ≤ img.height) :
    ∃ chain, GenerateMipmap M img 0 gamma = some chain ∧
      chain.length = Nat.log 2 (max img.width img.height) ∧
      (img.width = 1 → img.height = 1 → chain = []) := by
  obtain ⟨chain, hc, hlen, _⟩ := GenerateMipmap_spec M gamma img hv hw hh 0
  have e : (resolveMaxLevel img.width_ img.height_ 0).toNat =
      Nat.log 2 (max img.width_ img.height_) := by
    simp [resolveMaxLevel, floorLog2_eq_log]
  rw [e] at hlen
  refine ⟨chain, hc, hlen, ?_⟩
  intro h1 h2
  have h1' : img.width_ = 1 := h1
  have h2' : img.height_ = 1 := h2
  rw [h1', h2'] at hlen
  simp at hlen
  exact hlen

theorem GenerateMipmap_length_zero_witness :
    flat4x4.Valid ∧
    ∃ chain, GenerateMipmap quarterOps flat4x4 0
        (1 : Nat) = some chain ∧
      chain.length = Nat.log 2 (max flat4x4.width
        flat4x4.height) ∧
      (flat4x4.width = 1 →
        flat4x4.height = 1 → chain = []) :=
  ⟨by decide, GenerateMipmap_length_zero quarterOps (1 : Nat)
    flat4x4 (by decide) (by decide) (by decide)⟩

/-- C2: for a base image with `width ≥ 1` and `height ≥ 1` and every `K > 0`,
`GenerateMipmap` with `maxlevel = K` returns a chain of length exactly
`min(K, floor(log2(max(width, height))))`. -/
theorem GenerateMipmap_length_pos (M : FloatOps) (gamma : M.F) (img : ImageData 4)
    (hv : img.Valid) (hw : 1 ≤ img.width) (hh : 1 ≤ img.height) (K : Nat) (hK : 0 < K) :
    ∃ chain, GenerateMipmap M img (K : Int) gamma = some chain ∧
      chain.length = min K (Nat.log 2 (max img.width img.height)) := by
  obtain ⟨chain, hc, hlen, _⟩ := GenerateMipmap_spec M gamma img hv hw hh (K : Int)
  refine ⟨chain, hc, ?_⟩
  rw [hlen]
  unfold resolveMaxLevel
  rw [floorLog2_eq_log, if_pos (by omega)]
  simp only [ImageData.width, ImageData.height, Int.ofNat_eq_coe]
  omega

theorem GenerateMipmap_length_pos_witness :
    flat4x4.Valid ∧
    ∃ chain, GenerateMipmap quarterOps flat4x4
        ((1 : Nat) : Int) (1 : Nat) = some chain ∧
      chain.length = min 1 (Nat.log 2
        (max flat4x4.width flat4x4.height)) :=
  ⟨by decide, GenerateMipmap_length_pos quarterOps (1 : Nat)
    flat4x4 (by decide) (by decide) (by decide)
    1 (by decide)⟩

/-- C3: for a base image with `width ≥ 1` and `height ≥ 1` and every `K > 0`,
`GenerateMipmap` with `maxlevel = -K` returns a chain of length exactly
`max(0, floor(log2(max(width, height))) - K)`; when `K` reaches or exceeds the
full depth the result is the empty chain, not a failure. -/
theorem GenerateMipmap_length_neg (M : FloatOps) (gamma : M.F) (img : ImageData 4)
    (hv : img.Valid) (hw : 1 ≤ img.width) (hh : 1 ≤ img.height) (K : Nat) (hK : 0 < K) :
    ∃ chain, GenerateMipmap M img (-(K : Int)) gamma = some chain ∧
      (chain.length : Int) = max 0 ((Nat.log 2 (max img.width img.height) : Int) - K) ∧
      (Nat.log 2 (max img.width img.height) ≤ K → chain = []) := by
  obtain ⟨chain, hc, hlen, _⟩ := GenerateMipmap_spec M gamma img hv hw hh (-(K : Int))
  have e : resolveMaxLevel img.width_ img.height_ (-(K : Int)) =
      (Nat.log 2 (max img.width_ img.height_) : Int) - K := by
    unfold resolveMaxLevel
    rw [floorLog2_eq_log, if_neg (by omega), if_pos (by omega)]
    simp only [Int.ofNat_eq_coe]
    omega
  rw [e] at hlen
  refine ⟨chain, hc, ?_, ?_⟩
  · simp only [ImageData.width, ImageData.height]
    omega
  · intro hle
    simp only [ImageData.width, ImageData.height] at hle
    have : chain.length = 0 := by omega
    exact List.length_eq_zero.mp this

theorem GenerateMipmap_length_neg_witness :
    flat4x4.Valid ∧
    ∃ chain, GenerateMipmap quarterOps flat4x4
        (-((1 : Nat) : Int)) (1 : Nat) = some chain ∧
      (chain.length : Int) = max 0 ((Nat.log 2
        (max flat4x4.width flat4x4.height) : Int) - (1 : Nat)) ∧
      (Nat.log 2 (max flat4x4.width
          flat4x4.height) ≤ 1 → chain = []) :=
  ⟨by decide, GenerateMipmap_length_neg quarterOps (1 : Nat)
    flat4x4 (by decide) (by decide) (by decide)
    1 (by decide)⟩

/-! ## Level dimensions (C4) -/

/-- C4: for a base image of size `w x h` (`w, h ≥ 1`), every `maxlevel` and
`gamma`, `GenerateMipmap` returns a chain and every entry `chain[i]` has width
`max(1, w >> (i+1))` and height `max(1, h >> (i+1))`. -/
theorem GenerateMipmap_dims (M : FloatOps) (gamma : M.F) (img : ImageData 4)
    (hv : img.Valid) (hw : 1 ≤ img.width) (hh : 1 ≤ img.height) (maxlevel : Int) :
    ∃ chain, GenerateMipmap M img maxlevel gamma = some chain ∧
      ∀ i, i < chain.length → ∃ level, chain[i]? = some level ∧
        level.width = max 1 (img.width >>> (i + 1)) ∧
        level.height = max 1 (img.height >>> (i + 1)) := by
  obtain ⟨chain, hc, _, hinv⟩ := GenerateMipmap_spec M gamma img hv hw hh maxlevel
  refine ⟨chain, hc, ?_⟩
  intro i hi
  obtain ⟨_, dst, _, hd, _, _, dw, dh, _⟩ := hinv i hi
  exact ⟨dst, hd, dw, dh⟩

theorem GenerateMipmap_dims_witness :
    (ramp3x5.Valid ∧ ramp3x5.width = 3 ∧ ramp3x5.height = 5) ∧
    (max 1 (3 >>> (0 + 1)) = 1 ∧ max 1 (5 >>> (0 + 1)) = 2) ∧
    ∃ chain, GenerateMipmap quarterOps ramp3x5 0 (1 : Nat) = some chain ∧
      ∀ i, i < chain.length → ∃ level, chain[i]? = some level ∧
        level.width = max 1 (ramp3x5.width >>> (i + 1)) ∧
        level.height = max 1 (ramp3x5.height >>> (i + 1)) :=
  ⟨by decide, by decide, GenerateMipmap_dims quarterOps (1 : Nat) ramp3x5
    (by decide) (by decide) (by decide) 0⟩

/-! ## The filter (C6) -/

/-- C6: the chain has `levelCount` levels, and for every level `l` of the chain
(`1 ≤ l ≤ levelCount`), every destination pixel `(x, y)` with `x < cw`, `y < ch`
and every channel `c`, the stored value is the 8-bit truncation of
`(0.25 * (s00^gamma + s10^gamma + s01^gamma + s11^gamma))^(1/gamma)` (`boxFilter`,
the sum grouped as the program adds it, `0 + ((s00^gamma + s10^gamma) +
(s01^gamma + s11^gamma))`), where the `s` are channel `c` of the source pixels at
`(x0, y0)`, `(x1, y0)`, `(x0, y1)`, `(x1, y1)`, `x0 = 2x`, `x1 = min(x0+1, pw-1)`,
`y0 = 2y`, `y1 = min(y0+1, ph-1)`, and the source is the base for `l = 1`, else
`chain[l-2]`. -/
theorem GenerateMipmap_filter (M : FloatOps) (gamma : M.F) (img : ImageData 4)
    (hv : img.Valid) (hw : 1 ≤ img.width) (hh : 1 ≤ img.height) (maxlevel : Int) :
    ∃ chain, GenerateMipmap M img maxlevel gamma = some chain ∧
      chain.length = (resolveMaxLevel img.width img.height maxlevel).toNat ∧
      ∀ l, 1 ≤ l → l ≤ (resolveMaxLevel img.width img.height maxlevel).toNat →
        ∃ src dst, (if l = 1 then some img else chain[l - 2]?) = some src ∧
          chain[l - 1]? = some dst ∧
          src.width = max 1 (img.width >>> (l - 1)) ∧
          src.height = max 1 (img.height >>> (l - 1)) ∧
          dst.width = max 1 (img.width >>> l) ∧
          dst.height = max 1 (img.height >>> l) ∧
          ∀ x y c, x < max 1 (img.width >>> l) → y < max 1 (img.height >>> l) → c < 4 →
            dst.data[(y * max 1 (img.width >>> l) + x) * 4 + c]? =
              some (boxFilter M gamma
                (channelAt src (2 * x) (2 * y) c)
                (channelAt src (min (2 * x + 1) (max 1 (img.width >>> (l - 1)) - 1)) (2 * y) c)
                (channelAt src (2 * x) (min (2 * y + 1) (max 1 (img.height >>> (l - 1)) - 1)) c)
                (channelAt src (min (2 * x + 1) (max 1 (img.width >>> (l - 1)) - 1))
                  (min (2 * y + 1) (max 1 (img.height >>> (l - 1)) - 1)) c)) := by
  obtain ⟨chain, hc, hlen, hinv⟩ := GenerateMipmap_spec M gamma img hv hw hh maxlevel
  refine ⟨chain, hc, hlen, ?_⟩
  intro l hl1 hl2
  have hl3 : l ≤ chain.length := by rw [hlen]; exact hl2
  obtain ⟨src, dst, hs, hd, sw, sh, dw, dh, _, _, hf⟩ := hinv (l - 1) (by omega)
  have e : l - 1 + 1 = l := by omega
  rw [e] at dw dh
  refine ⟨src, dst, ?_, hd, sw, sh, dw, dh, ?_⟩
  · unfold sourceOf at hs
    by_cases h1 : l = 1
    · subst h1
      simpa using hs
    · have h0 : ¬ (l - 1 = 0) := by omega
      rw [if_neg h0] at hs
      rw [if_neg h1]
      have e2 : l - 1 - 1 = l - 2 := by omega
      rw [e2] at hs
      exact hs
  · intro x y c hx hy hc
    simp only [ImageData.width, ImageData.height] at hx hy ⊢
    rw [← dw] at hx
    rw [← dh] at hy
    obtain ⟨_, _, hval⟩ := hf y hy x hx c hc
    rw [← sw, ← sh, ← dw]
    exact hval

theorem GenerateMipmap_filter_witness :
    (ramp3x5.Valid ∧ (resolveMaxLevel ramp3x5.width ramp3x5.height 0).toNat = 2) ∧
    ∃ chain, GenerateMipmap quarterOps ramp3x5 0 (1 : Nat) = some chain ∧
      chain.length = (resolveMaxLevel ramp3x5.width ramp3x5.height 0).toNat ∧
      ∀ l, 1 ≤ l → l ≤ (resolveMaxLevel ramp3x5.width ramp3x5.height 0).toNat →
        ∃ src dst, (if l = 1 then some ramp3x5 else chain[l - 2]?) = some src ∧
          chain[l - 1]? = some dst ∧
          src.width = max 1 (ramp3x5.width >>> (l - 1)) ∧
          src.height = max 1 (ramp3x5.height >>> (l - 1)) ∧
          dst.width = max 1 (ramp3x5.width >>> l) ∧
          dst.height = max 1 (ramp3x5.height >>> l) ∧
          ∀ x y c, x < max 1 (ramp3x5.width >>> l) → y < max 1 (ramp3x5.height >>> l) →
            c < 4 →
            dst.data[(y * max 1 (ramp3x5.width >>> l) + x) * 4 + c]? =
              some (boxFilter quarterOps (1 : Nat)
                (channelAt src (2 * x) (2 * y) c)
                (channelAt src (min (2 * x + 1) (max 1 (ramp3x5.width >>> (l - 1)) - 1))
                  (2 * y) c)
                (channelAt src (2 * x)
                  (min (2 * y + 1) (max 1 (ramp3x5.height >>> (l - 1)) - 1)) c)
                (channelAt src (min (2 * x + 1) (max 1 (ramp3x5.width >>> (l - 1)) - 1))
                  (min (2 * y + 1) (max 1 (ramp3x5.height >>> (l - 1)) - 1)) c)) :=
  ⟨by decide, GenerateMipmap_filter quarterOps (1 : Nat) ramp3x5
    (by decide) (by decide) (by decide) 0⟩

/-! ## ReadPixel (C7, C8) -/

/-- Both constructors establish the data-model invariant when the product
`width * height * N` fits 32 bits (and, for a wrapped pointer, the memory behind
it holds that many elements). -/
theorem constructors_valid (N width height : Nat) (data : List Nat)
    (h : width * height * N < 2 ^ 32) (hd : width * height * N ≤ data.length) :
    (ImageData.owned N width height).Valid ∧ (ImageData.borrowed N width height data).Valid ∧
      (ImageData.owned N width height).size = width * height * N ∧
      (ImageData.owned N width height).data.length = width * height * N ∧
      (ImageData.borrowed N width height data).size = width * height * N := by
  have hcc : ImageData.componentCount N width height = width * height * N := by
    unfold ImageData.componentCount u32
    rw [Nat.mod_mul_mod]
    exact Nat.mod_eq_of_lt h
  refine ⟨⟨h, hcc, ?_⟩, ⟨h, hcc, ?_⟩, hcc, ?_, hcc⟩
  · simp [ImageData.owned]
  · show ImageData.componentCount N width height ≤ data.length
    rw [hcc]; exact hd
  · simp [ImageData.owned, ImageData.data, hcc]

/-- C7: for every `ImageData<uint8_t, N>` buffer of size `width x height` (an
image buffer satisfying the data-model invariant) and every `(x, y)` with
`x < width` and `y < height`, `ReadPixel(x, y)` returns exactly the `N` store
elements at offsets `(y*width + x)*N, ..., (y*width + x)*N + N - 1`, and all of
these offsets lie inside `[0, component_count)`. -/
theorem ReadPixel_in_range {N : Nat} (img : ImageData N) (hv : img.Valid) (x y : Nat)
    (hx : x < img.width) (hy : y < img.height) :
    ∃ px, img.ReadPixel x y = some px ∧ px.length = N ∧
      ∀ k, k < N →
        (y * img.width + x) * N + k < img.size ∧
        px[k]? = img.data[(y * img.width + x) * N + k]? ∧
        (img.data[(y * img.width + x) * N + k]?).isSome = true :=
  img.ReadPixel_in_range_aux hv x y hx hy

theorem ReadPixel_in_range_witness :
    (ramp3x5.Valid ∧ 2 < ramp3x5.width ∧ 4 < ramp3x5.height) ∧
    ∃ px, ramp3x5.ReadPixel 2 4 = some px ∧ px.length = 4 ∧
      ∀ k, k < 4 →
        (4 * ramp3x5.width + 2) * 4 + k < ramp3x5.size ∧
        px[k]? = ramp3x5.data[(4 * ramp3x5.width + 2) * 4 + k]? ∧
        (ramp3x5.data[(4 * ramp3x5.width + 2) * 4 + k]?).isSome = true :=
  ⟨by decide, ReadPixel_in_range ramp3x5 (by decide) 2 4 (by decide) (by decide)⟩

/-- C8, counterexample: on the valid 2x2 buffer `ramp2x2` the read at
`x = width = 2`, `y = 0` returns a pixel, namely the pixel at `(0, 1)`. -/
theorem ReadPixel_out_of_range_counterexample :
    ramp2x2.Valid ∧ ramp2x2.width ≤ 2 ∧ 2 ≤ ramp2x2.height ∧
    ramp2x2.ReadPixel 2 0 = some [8, 9, 10, 11] ∧
    ramp2x2.ReadPixel 2 0 = ramp2x2.ReadPixel 0 1 := by
  decide

/-- C8, amended: `ReadPixel` compares neither `x` with `width` nor `y` with
`height`.  On a buffer satisfying the invariant, every `(x, y)` whose linear
index `y*width + x` is below `width*height` (which includes `x ≥ width`) yields
the `N` store elements at offset `(y*width + x)*N`, that is the in-store pixel
with that linear index; in particular `(width, 0)` yields the pixel `(0, 1)`
when `height ≥ 2`. -/
theorem ReadPixel_unchecked {N : Nat} (img : ImageData N) (hv : img.Valid) (x y : Nat)
    (hin : y * img.width + x < img.width * img.height) :
    (∃ px, img.ReadPixel x y = some px ∧ px.length = N ∧
      ∀ k, k < N → px[k]? = img.data[(y * img.width + x) * N + k]?) ∧
    img.ReadPixel x y =
      img.ReadPixel ((y * img.width + x) % img.width) ((y * img.width + x) / img.width) ∧
    (2 ≤ img.height → img.ReadPixel img.width 0 = img.ReadPixel 0 1) := by
  simp only [ImageData.width, ImageData.height, ImageData.data] at hin ⊢
  obtain ⟨h32, hcc, hlen⟩ := hv
  have hle : (y * img.width_ + x) * N + N ≤ img.width_ * img.height_ * N := by
    have : (y * img.width_ + x + 1) * N ≤ img.width_ * img.height_ * N :=
      Nat.mul_le_mul_right N hin
    have e : (y * img.width_ + x + 1) * N = (y * img.width_ + x) * N + N := by ring
    omega
  have hoff : img.pixelOffset x y = (y * img.width_ + x) * N := by
    rw [ImageData.pixelOffset_eq_mod]
    exact Nat.mod_eq_of_lt (by omega)
  have hsame : ∀ x2 y2 : Nat, y2 * img.width_ + x2 = y * img.width_ + x →
      img.ReadPixel x2 y2 = img.ReadPixel x y := by
    intro x2 y2 h
    unfold ImageData.ReadPixel
    rw [ImageData.pixelOffset_eq_mod, ImageData.pixelOffset_eq_mod, h]
  refine ⟨⟨(img.data_.drop ((y * img.width_ + x) * N)).take N, ?_, ?_, ?_⟩, ?_, ?_⟩
  · unfold ImageData.ReadPixel
    rw [hoff, if_pos (by omega)]
  · rw [List.length_take, List.length_drop]; omega
  · intro k hk
    rw [List.getElem?_take_of_lt hk, List.getElem?_drop]
  · refine (hsame _ _ ?_).symm
    rw [Nat.mul_comm]
    exact Nat.div_add_mod _ _
  · intro _
    unfold ImageData.ReadPixel
    rw [ImageData.pixelOffset_eq_mod, ImageData.pixelOffset_eq_mod]
    simp

theorem ReadPixel_unchecked_witness :
    (ramp2x2.Valid ∧ 0 * ramp2x2.width + 2 < ramp2x2.width * ramp2x2.height ∧
      ramp2x2.width ≤ 2) ∧
    ((∃ px, ramp2x2.ReadPixel 2 0 = some px ∧ px.length = 4 ∧
      ∀ k, k < 4 → px[k]? = ramp2x2.data[(0 * ramp2x2.width + 2) * 4 + k]?) ∧
    ramp2x2.ReadPixel 2 0 =
      ramp2x2.ReadPixel ((0 * ramp2x2.width + 2) % ramp2x2.width)
        ((0 * ramp2x2.width + 2) / ramp2x2.width) ∧
    (2 ≤ ramp2x2.height → ramp2x2.ReadPixel ramp2x2.width 0 = ramp2x2.ReadPixel 0 1)) :=
  ⟨by decide, ReadPixel_unchecked ramp2x2 (by decide) 2 0 (by decide)⟩

/-! ## Component count (C9) -/

/-- C9, the code at the failing input `width = height = 65536`, `N = 4`: both
constructors store `component_count_ = 0` (and the owning one allocates no
element) although `width * height * N = 2 ^ 34`. -/
theorem componentCount_wraps :
    (65536 < 2 ^ 32 ∧ 65536 * 65536 * 4 = 2 ^ 34) ∧
    (ImageData.owned 4 65536 65536).size = 0 ∧
    (ImageData.owned 4 65536 65536).data = [] ∧
    (ImageData.borrowed 4 65536 65536 []).size = 0 := by
  decide

/-! ## SetData after mip generation (C10) -/

theorem SetMipmapsGamma_flag {M : FloatOps} (t t1 : Texture_Impl M) (maxlevel : Int)
    (gamma : M.F) (h : t.SetMipmapsGamma maxlevel gamma = some t1) : t1.m_mipmaps = true := by
  unfold Texture_Impl.SetMipmapsGamma at h
  split at h
  · cases h
  · cases h
    rfl

/-- C10, counterexample: after `SetMipmaps(true)`, and after `SetMipmaps(0, gamma)`
on a 4x4 image, a subsequent `SetData` leaves the mip-generation flag set and
keeps the stored chain of two levels. -/
theorem SetData_mip_state_counterexample :
    ((freshTexture.SetMipmaps true).SetData { x := 2, y := 2 }
      (some (List.range 16))).m_mipmaps = true ∧
    (((freshTexture.SetData { x := 4, y := 4 }
        (some (flatStore 16 [200, 200, 200, 255]))).SetMipmapsGamma 0 (1 : Nat)).map
      (fun t => ((t.SetData { x := 2, y := 2 } (some (List.range 16))).m_mipmaps,
        (t.SetData { x := 2, y := 2 } (some (List.range 16))).m_mipmapChain.length))) =
      some (true, 2) := by
  decide

/-- C10, amended: in every texture state reached by `SetMipmaps(true)` or by
`SetMipmaps(maxlevel, gamma)`, a subsequent `SetData(size, pData)` sets the
format to RGBA8 and records `size` and `pData`, and leaves the mip state as it
is: the mip-generation flag stays set and the stored chain is kept. -/
theorem SetData_keeps_mip_state {M : FloatOps} (t0 t1 : Texture_Impl M) (maxlevel : Int)
    (gamma : M.F) (size : Vector2i) (pData : Option (List Nat))
    (h : t1 = t0.SetMipmaps true ∨ t0.SetMipmapsGamma maxlevel gamma = some t1) :
    (t1.SetData size pData).m_format = TextureFormat.RGBA8 ∧
    (t1.SetData size pData).m_size = size ∧
    (t1.SetData size pData).m_data = pData ∧
    (t1.SetData size pData).m_mipmaps = true ∧
    (t1.SetData size pData).m_mipmapChain = t1.m_mipmapChain := by
  refine ⟨rfl, rfl, rfl, ?_, rfl⟩
  show t1.m_mipmaps = true
  rcases h with h | h
  · rw [h]; rfl
  · exact SetMipmapsGamma_flag t0 t1 maxlevel gamma h

theorem SetData_keeps_mip_state_witness :
    (freshTexture.SetMipmaps true = freshTexture.SetMipmaps true ∨
      freshTexture.SetMipmapsGamma 0 (1 : Nat) = some (freshTexture.SetMipmaps true)) ∧
    ((freshTexture.SetMipmaps true).SetData { x := 2, y := 2 }
        (some (List.range 16))).m_format = TextureFormat.RGBA8 ∧
    ((freshTexture.SetMipmaps true).SetData { x := 2, y := 2 }
        (some (List.range 16))).m_size = { x := 2, y := 2 } ∧
    ((freshTexture.SetMipmaps true).SetData { x := 2, y := 2 }
        (some (List.range 16))).m_data = some (List.range 16) ∧
    ((freshTexture.SetMipmaps true).SetData { x := 2, y := 2 }
        (some (List.range 16))).m_mipmaps = true ∧
    ((freshTexture.SetMipmaps true).SetData { x := 2, y := 2 }
        (some (List.range 16))).m_mipmapChain = (freshTexture.SetMipmaps true).m_mipmapChain :=
  ⟨Or.inl rfl, SetData_keeps_mip_state freshTexture (freshTexture.SetMipmaps true) 0 (1 : Nat)
    { x := 2, y := 2 } (some (List.range 16)) (Or.inl rfl)⟩

/-! ## Flat colour (C5) -/

theorem flat_level (M : FloatOps) (gamma : M.F) (src dst : ImageData 4)
    (hf : FilteredFrom M gamma src dst) (k : Nat → Nat)
    (hflat : ∀ x y c, x < src.width_ → y < src.height_ → c < 4 → channelAt src x y c = k c) :
    ∀ x y c, x < dst.width_ → y < dst.height_ → c < 4 →
      channelAt dst x y c = filterSame M gamma (k c) := by
  intro x y c hx hy hc
  obtain ⟨h2x, h2y, hval⟩ := hf y hy x hx c hc
  have hx1 : min (2 * x + 1) (src.width_ - 1) < src.width_ := by
    have := Nat.min_le_right (2 * x + 1) (src.width_ - 1); omega
  have hy1 : min (2 * y + 1) (src.height_ - 1) < src.height_ := by
    have := Nat.min_le_right (2 * y + 1) (src.height_ - 1); omega
  rw [hflat _ _ c h2x h2y hc, hflat _ _ c hx1 h2y hc, hflat _ _ c h2x hy1 hc,
    hflat _ _ c hx1 hy1 hc] at hval
  unfold channelAt
  rw [List.getD_eq_getElem?_getD, hval]
  rfl

theorem flat_chain (M : FloatOps) (gamma : M.F) (img : ImageData 4)
    (chain : List (ImageData 4)) (hinv : ChainOK M gamma img chain) (col : Nat → Nat)
    (hflat : ∀ x y c, x < img.width_ → y < img.height_ → c < 4 → channelAt img x y c = col c) :
    ∀ i, i < chain.length → ∃ level, chain[i]? = some level ∧
      ∀ x y c, x < level.width_ → y < level.height_ → c < 4 →
        channelAt level x y c = (filterSame M gamma)^[i + 1] (col c) := by
  intro i
  induction i with
  | zero =>
    intro hi
    obtain ⟨src, dst, hs, hd, _, _, _, _, _, _, hf⟩ := hinv 0 hi
    have : src = img := by
      simp [sourceOf] at hs
      exact hs.symm
    subst this
    refine ⟨dst, hd, ?_⟩
    intro x y c hx hy hc
    rw [flat_level M gamma src dst hf col hflat x y c hx hy hc]
    rfl
  | succ i ih =>
    intro hi
    obtain ⟨prev, hp, hpflat⟩ := ih (by omega)
    obtain ⟨src, dst, hs, hd, _, _, _, _, _, _, hf⟩ := hinv (i + 1) hi
    have : src = prev := by
      simp only [sourceOf, Nat.add_one_ne_zero, if_false, Nat.add_sub_cancel] at hs
      rw [hp] at hs
      cases hs
      rfl
    subst this
    refine ⟨dst, hd, ?_⟩
    intro x y c hx hy hc
    rw [flat_level M gamma src dst hf (fun c => (filterSame M gamma)^[i + 1] (col c))
      hpflat x y c hx hy hc]
    exact (Function.iterate_succ_apply' (filterSame M gamma) (i + 1) (col c)).symm

theorem iterate_within (f : Nat → Nat)
    (herr : ∀ v, v < 256 → f v < 256 ∧ f v ≤ v + 1 ∧ v ≤ f v + 1) (n v : Nat) (hv : v < 256) :
    f^[n] v < 256 ∧ f^[n] v ≤ v + n ∧ v ≤ f^[n] v + n := by
  induction n with
  | zero => simp [hv]
  | succ n ih =>
    rw [Function.iterate_succ_apply']
    have := herr (f^[n] v) ih.1
    omega

theorem flat4x4_two_levels (M : FloatOps) (gamma : M.F) :
    ∃ chain, GenerateMipmap M flat4x4 0 gamma = some chain ∧ chain.length = 2 ∧
      chain.map (fun level => (level.width, level.height)) = [(2, 2), (1, 1)] := by
  obtain ⟨chain, hc, hlen, hinv⟩ :=
    GenerateMipmap_spec M gamma flat4x4 (by decide) (by decide) (by decide) 0
  have e : (resolveMaxLevel flat4x4.width_ flat4x4.height_ 0).toNat = 2 := by decide
  rw [e] at hlen
  refine ⟨chain, hc, hlen, ?_⟩
  obtain ⟨_, d0, _, hd0, _, _, w0, h0, _⟩ := hinv 0 (by omega)
  obtain ⟨_, d1, _, hd1, _, _, w1, h1, _⟩ := hinv 1 (by omega)
  match chain, hlen, hd0, hd1 with
  | [a, b], _, hd0, hd1 =>
    simp only [List.getElem?_cons_zero, List.getElem?_cons_succ, Option.some.injEq] at hd0 hd1
    subst hd0 hd1
    simp only [List.map_cons, List.map_nil, ImageData.width, ImageData.height, w0, h0, w1, h1]
    decide

/-- C5, counterexample: for every float model and every `gamma`, the 4x4 base of
colour `(200, 200, 200, 255)` with `maxlevel = 0` gives a chain of two levels,
of sizes 2x2 and 1x1, not exactly one 2x2 level. -/
theorem flat4x4_levels_counterexample :
    flat4x4.Valid ∧
    ∀ (M : FloatOps) (gamma : M.F), ∃ chain,
      GenerateMipmap M flat4x4 0 gamma = some chain ∧ chain.length = 2 ∧
      chain.map (fun level => (level.width, level.height)) = [(2, 2), (1, 1)] :=
  ⟨by decide, fun M gamma => flat4x4_two_levels M gamma⟩

/-- C5, amended: for a flat base image of colour `col` (`w, h ≥ 1`), any
`maxlevel` and `gamma`, every level of the chain is flat again, its colour
being the filter of four equal samples applied once per level to `col`
(unconditionally); if one such application maps every byte to a byte at
distance at most `1`, and `col` is a byte, then every channel of every pixel of
`chain[i]` is a byte within `i + 1` of the channel of `col`.  The 4x4 base of
colour `(200, 200, 200, 255)` with `maxlevel = 0` gives two levels, 2x2 and 1x1. -/
theorem flat_color_chain (M : FloatOps) (gamma : M.F) (img : ImageData 4)
    (hv : img.Valid) (hw : 1 ≤ img.width) (hh : 1 ≤ img.height) (maxlevel : Int)
    (col : Nat → Nat)
    (hflat : ∀ x y c, x < img.width → y < img.height → c < 4 → channelAt img x y c = col c) :
    (∃ chain, GenerateMipmap M img maxlevel gamma = some chain ∧
      ∀ i, i < chain.length → ∃ level, chain[i]? = some level ∧
        ∀ x y c, x < level.width → y < level.height → c < 4 →
          channelAt level x y c = (filterSame M gamma)^[i + 1] (col c) ∧
          ((∀ v, v < 256 → filterSame M gamma v < 256 ∧
              filterSame M gamma v ≤ v + 1 ∧ v ≤ filterSame M gamma v + 1) →
            col c < 256 →
            channelAt level x y c < 256 ∧
            channelAt level x y c ≤ col c + (i + 1) ∧
            col c ≤ channelAt level x y c + (i + 1))) ∧
    (∃ chain, GenerateMipmap M flat4x4 0 gamma = some chain ∧
      chain.map (fun level => (level.width, level.height)) = [(2, 2), (1, 1)]) := by
  obtain ⟨chain, hc, _, hinv⟩ := GenerateMipmap_spec M gamma img hv hw hh maxlevel
  refine ⟨⟨chain, hc, ?_⟩, ?_⟩
  · intro i hi
    obtain ⟨level, hl, hfl⟩ := flat_chain M gamma img chain hinv col hflat i hi
    refine ⟨level, hl, ?_⟩
    intro x y c hx hy hc
    have e := hfl x y c hx hy hc
    refine ⟨e, ?_⟩
    intro herr hcol
    rw [e]
    exact iterate_within (filterSame M gamma) herr (i + 1) (col c) hcol
  · obtain ⟨chain4, h4, _, hd⟩ := flat4x4_two_levels M gamma
    exact ⟨chain4, h4, hd⟩

theorem flat_color_chain_witness :
    (flat4x4.Valid ∧
      ∀ v, v < 256 → filterSame lossyOps (1 : Nat) v < 256 ∧
        filterSame lossyOps (1 : Nat) v ≤ v + 1 ∧ v ≤ filterSame lossyOps (1 : Nat) v + 1) ∧
    ∃ chain, GenerateMipmap lossyOps flat4x4 0 (1 : Nat) = some chain ∧
      ∀ i, i < chain.length → ∃ level, chain[i]? = some level ∧
        ∀ x y c, x < level.width → y < level.height → c < 4 →
          channelAt level x y c < 256 ∧
          channelAt level x y c ≤ [200, 200, 200, 255].getD c 0 + (i + 1) ∧
          [200, 200, 200, 255].getD c 0 ≤ channelAt level x y c + (i + 1) := by
  have herr : ∀ v, v < 256 → filterSame lossyOps (1 : Nat) v < 256 ∧
      filterSame lossyOps (1 : Nat) v ≤ v + 1 ∧ v ≤ filterSame lossyOps (1 : Nat) v + 1 := by
    intro v hv
    have : filterSame lossyOps (1 : Nat) v = v - 1 := by
      simp only [filterSame, boxFilter, lossyOps]
      omega
    omega
  obtain ⟨⟨chain, hc, hall⟩, _⟩ :=
    flat_color_chain lossyOps (1 : Nat) flat4x4 (by decide) (by decide) (by decide) 0
      (fun c => [200, 200, 200, 255].getD c 0)
      (by
        intro x y c hx hy hc
        have hx4 : x < 4 := hx
        have hy4 : y < 4 := hy
        interval_cases x <;> interval_cases y <;> interval_cases c <;> rfl)
  refine ⟨⟨by decide, herr⟩, chain, hc, ?_⟩
  intro i hi
  obtain ⟨level, hl, hlv⟩ := hall i hi
  refine ⟨level, hl, ?_⟩
  intro x y c hx hy hc
  have hcol : [200, 200, 200, 255].getD c 0 < 256 := by
    interval_cases c <;> decide
  exact (hlv x y c hx hy hc).2 herr hcol

/-- In the model `lossyOps`, where each application of the filter to a flat level
loses one unit, the deviation from the base colour grows by one per level: the
second level of the flat 4x4 base is `(198, 198, 198, 253)`. -/
theorem flat4x4_drift_lossyOps :
    GenerateMipmap lossyOps flat4x4 0 (1 : Nat) =
      some [{ width_ := 2, height_ := 2, component_count_ := 16, from_raw_pointer_ := none,
              data_ := flatStore 4 [199, 199, 199, 254] },
            { width_ := 1, height_ := 1, component_count_ := 4, from_raw_pointer_ := none,
              data_ := [198, 198, 198, 253] }] := by
  decide

/-! ## SetMipmaps(false) (C12) -/

/-- C12: for every texture state, `SetMipmaps(false)` clears the mip-generation
flag and re-sends the filter parameters; the handle, format, size, wrap modes,
filter, mip-filter and anisotropy settings, pixel reference and stored chain are
unchanged, and no `glGenerateMipmap` (and no upload) is issued. -/
theorem SetMipmaps_false_frame {M : FloatOps} (t : Texture_Impl M) :
    (t.SetMipmaps false).m_mipmaps = false ∧
    (t.SetMipmaps false).m_texture = t.m_texture ∧
    (t.SetMipmaps false).m_format = t.m_format ∧
    (t.SetMipmaps false).m_size = t.m_size ∧
    (t.SetMipmaps false).m_wmode = t.m_wmode ∧
    (t.SetMipmaps false).m_filter = t.m_filter ∧
    (t.SetMipmaps false).m_mipFilter = t.m_mipFilter ∧
    (t.SetMipmaps false).m_anisotropic = t.m_anisotropic ∧
    (t.SetMipmaps false).m_data = t.m_data ∧
    (t.SetMipmaps false).m_mipmapChain = t.m_mipmapChain ∧
    ∃ added, (t.SetMipmaps false).calls = t.calls ++ added ∧
      added =
        [GLCall.glBindTexture t.m_texture,
         GLCall.glTexParameteri GLenum.GL_TEXTURE_MIN_FILTER (GLParam.const t.plainFilter),
         GLCall.glTexParameteri GLenum.GL_TEXTURE_MAG_FILTER (GLParam.const t.plainFilter),
         GLCall.glTexParameteri GLenum.GL_TEXTURE_MAX_ANISOTROPY_EXT
           (GLParam.ofFloat t.m_anisotropic),
         GLCall.glBindTexture 0] ∧
      ∀ c, c ∈ added → c.isGenerateMipmap = false ∧ c.isTexImage2D = false := by
  refine ⟨rfl, rfl, rfl, rfl, rfl, rfl, rfl, rfl, rfl, rfl, _, ?_, rfl, ?_⟩
  · simp [Texture_Impl.SetMipmaps, Texture_Impl.UpdateFilterState, Texture_Impl.filterCalls,
      Texture_Impl.plainFilter]
  · intro c hc
    simp only [List.mem_cons, List.mem_singleton, List.not_mem_nil, or_false] at hc
    rcases hc with h | h | h | h | h <;> subst h <;> exact ⟨rfl, rfl⟩

/-! ## SetMipmaps(maxlevel, gamma) (C11) -/

theorem uploadCalls_length {M : FloatOps} (chain : List (ImageData 4)) :
    (Texture_Impl.uploadCalls chain : List (GLCall M.F)).length = chain.length := by
  simp [Texture_Impl.uploadCalls]

theorem uploadCalls_getElem {M : FloatOps} (chain : List (ImageData 4)) (i : Nat)
    (level : ImageData 4) (h : chain[i]? = some level) :
    (Texture_Impl.uploadCalls chain : List (GLCall M.F))[i]? =
      some (GLCall.glTexImage2D (i + 1) GLenum.GL_RGBA8 (Int.ofNat level.width)
        (Int.ofNat level.height) GLenum.GL_RGBA GLenum.GL_UNSIGNED_BYTE (some level.data)) := by
  have hi : i < chain.length := by
    by_contra hcon
    rw [List.getElem?_eq_none (by omega)] at h
    cases h
  unfold Texture_Impl.uploadCalls
  rw [List.getElem?_zipWith, List.getElem?_range hi, h]

theorem uploadCalls_all {M : FloatOps} (chain : List (ImageData 4)) :
    ∀ c, c ∈ (Texture_Impl.uploadCalls chain : List (GLCall M.F)) → c.isTexImage2D = true := by
  intro c hc
  unfold Texture_Impl.uploadCalls at hc
  rw [List.mem_iff_getElem?] at hc
  obtain ⟨i, hi⟩ := hc
  rw [List.getElem?_zipWith] at hi
  cases h1 : (List.range chain.length)[i]? with
  | none => rw [h1] at hi; cases hi
  | some a =>
    cases h2 : chain[i]? with
    | none => rw [h1, h2] at hi; cases hi
    | some b =>
      rw [h1, h2] at hi
      cases hi
      rfl

theorem filterCalls_no_upload {M : FloatOps} (t : Texture_Impl M) :
    t.filterCalls.countP GLCall.isTexImage2D = 0 := by
  unfold Texture_Impl.filterCalls
  split_ifs <;> rfl

theorem toU32_natCast (w : Nat) (h : w < 2 ^ 32) : Texture_Impl.toU32 (w : Int) = w := by
  unfold Texture_Impl.toU32
  omega

/-- C11: for a texture populated by `SetData` with a valid `w x h` RGBA8 buffer,
`SetMipmaps(maxlevel, gamma)` stores the chain `GenerateMipmap(base, maxlevel, gamma)`
(`gamma` converted to `float` at the call), sets `GL_TEXTURE_MAX_LEVEL` to the
chain length `L`, issues exactly `L` uploads, the `i`-th to mip level `i + 1`
with the width, height and data of `chain[i]`, and sets the mip-generation flag. -/
theorem SetMipmapsGamma_uploads {M : FloatOps} (t0 : Texture_Impl M) (w h : Nat)
    (data : List Nat) (maxlevel : Int) (gamma : M.F) (hw : 1 ≤ w) (hh : 1 ≤ h)
    (h32 : w * h * 4 < 2 ^ 32) (hd : w * h * 4 ≤ data.length) :
    ∃ chain t1,
      GenerateMipmap M (ImageData.borrowed 4 w h data) maxlevel (M.toFloat gamma) =
        some chain ∧
      (t0.SetData { x := w, y := h } (some data)).SetMipmapsGamma maxlevel gamma = some t1 ∧
      t1.m_mipmapChain = chain ∧ t1.m_mipmaps = true ∧
      ∃ ups added,
        t1.calls = (t0.SetData { x := w, y := h } (some data)).calls ++ added ∧
        added =
          [GLCall.glBindTexture t0.m_texture,
           GLCall.glTexParameteri GLenum.GL_TEXTURE_BASE_LEVEL (GLParam.int 0),
           GLCall.glTexParameteri GLenum.GL_TEXTURE_MAX_LEVEL
             (GLParam.int (Int.ofNat chain.length))] ++ ups ++
          [GLCall.glBindTexture 0] ++
          ([GLCall.glBindTexture t0.m_texture] ++ t1.filterCalls ++ [GLCall.glBindTexture 0]) ∧
        ups.length = chain.length ∧
        (∀ i, i < chain.length → ∃ level, chain[i]? = some level ∧
          ups[i]? = some (GLCall.glTexImage2D (i + 1) GLenum.GL_RGBA8 (Int.ofNat level.width)
            (Int.ofNat level.height) GLenum.GL_RGBA GLenum.GL_UNSIGNED_BYTE
            (some level.data))) ∧
        added.countP GLCall.isTexImage2D = chain.length := by
  have hwl : w < 2 ^ 32 := by
    by_contra hcon
    have : 2 ^ 32 * 1 ≤ w * h := Nat.mul_le_mul (by omega) hh
    omega
  have hhl : h < 2 ^ 32 := by
    by_contra hcon
    have : 1 * 2 ^ 32 ≤ w * h := Nat.mul_le_mul hw (by omega)
    omega
  have hvalid := (constructors_valid 4 w h data h32 hd).2.1
  obtain ⟨chain, hc, _, _⟩ :=
    GenerateMipmap_spec M (M.toFloat gamma) (ImageData.borrowed 4 w h data) hvalid hw hh maxlevel
  have hrun : (t0.SetData { x := w, y := h } (some data)).SetMipmapsGamma maxlevel gamma =
      some (Texture_Impl.UpdateFilterState
        { (t0.SetData { x := w, y := h } (some data)) with
          m_mipmapChain := chain
          m_mipmaps := true
          calls := (t0.SetData { x := w, y := h } (some data)).calls ++
            [GLCall.glBindTexture t0.m_texture,
             GLCall.glTexParameteri GLenum.GL_TEXTURE_BASE_LEVEL (GLParam.int 0),
             GLCall.glTexParameteri GLenum.GL_TEXTURE_MAX_LEVEL
               (GLParam.int (Int.ofNat chain.length))]
            ++ Texture_Impl.uploadCalls chain ++ [GLCall.glBindTexture 0] }) := by
    unfold Texture_Impl.SetMipmapsGamma
    have e1 : (t0.SetData { x := (w : Int), y := (h : Int) } (some data)).m_size =
        { x := (w : Int), y := (h : Int) } := rfl
    have e2 : (t0.SetData { x := (w : Int), y := (h : Int) } (some data)).m_data =
        some data := rfl
    simp only [e1, e2, toU32_natCast w hwl, toU32_natCast h hhl, Option.getD_some, hc]
    rfl
  refine ⟨chain, _, hc, hrun, rfl, rfl, Texture_Impl.uploadCalls chain, _, ?_, rfl,
    uploadCalls_length chain, ?_, ?_⟩
  · simp [Texture_Impl.UpdateFilterState, Texture_Impl.SetData, Texture_Impl.UpdateWrap,
      Texture_Impl.filterCalls, Texture_Impl.plainFilter]
  · intro i hi
    refine ⟨chain[i], List.getElem?_eq_getElem hi, ?_⟩
    exact uploadCalls_getElem chain i _ (List.getElem?_eq_getElem hi)
  · simp only [List.countP_append, filterCalls_no_upload]
    have hall : (Texture_Impl.uploadCalls chain : List (GLCall M.F)).countP
        GLCall.isTexImage2D = chain.length := by
      rw [← uploadCalls_length (M := M) chain]
      exact List.countP_eq_length.mpr (uploadCalls_all chain)
    rw [hall]
    simp [List.countP_cons, GLCall.isTexImage2D]

theorem SetMipmapsGamma_uploads_witness :
    (1 ≤ 2 ∧ 2 * 2 * 4 < 2 ^ 32 ∧ 2 * 2 * 4 ≤ (List.range 16).length) ∧
    ∃ chain t1,
      GenerateMipmap quarterOps (ImageData.borrowed 4 2 2 (List.range 16)) 0
        (quarterOps.toFloat (1 : Nat)) = some chain ∧
      (freshTexture.SetData { x := 2, y := 2 } (some (List.range 16))).SetMipmapsGamma 0
        (1 : Nat) = some t1 ∧
      t1.m_mipmapChain = chain ∧ t1.m_mipmaps = true ∧
      ∃ added, t1.calls =
          (freshTexture.SetData { x := 2, y := 2 } (some (List.range 16))).calls ++ added ∧
        added.countP GLCall.isTexImage2D = chain.length := by
  obtain ⟨chain, t1, h1, h2, h3, h4, _, added, h5, _, _, _, h6⟩ :=
    SetMipmapsGamma_uploads freshTexture 2 2 (List.range 16) 0 (1 : Nat)
      (by decide) (by decide) (by decide) (by decide)
  exact ⟨by decide, chain, t1, h1, h2, h3, h4, added, h5, h6⟩

/-! ## Total work (C13) -/

theorem level_sum_bound (w h n : Nat) (hn : 2 ^ n ≤ max w h) :
    ((List.range n).map
        (fun i => max 1 (w >>> (i + 1)) * max 1 (h >>> (i + 1)))).sum +
      max 1 (w >>> n) * max 1 (h >>> n) ≤ max 1 w * max 1 h := by
  induction n with
  | zero => simp
  | succ n ih =>
    have h2 : 2 ^ n ≤ 2 ^ (n + 1) := Nat.pow_le_pow_right (by norm_num) (by omega)
    have ih2 := ih (by omega)
    have hd := level_dims w h (n + 1) (by omega) hn
    rw [Nat.add_sub_cancel] at hd
    rw [List.range_succ, List.map_append, List.sum_append]
    simp only [List.map_cons, List.map_nil, List.sum_cons, List.sum_nil]
    omega

theorem chain_pixels_eq (M : FloatOps) (gamma : M.F) (img : ImageData 4)
    (chain : List (ImageData 4)) (hinv : ChainOK M gamma img chain) :
    chain.map (fun level => level.width * level.height) =
      (List.range chain.length).map
        (fun i => max 1 (img.width_ >>> (i + 1)) * max 1 (img.height_ >>> (i + 1))) := by
  apply List.ext_getElem?
  intro i
  by_cases hi : i < chain.length
  · obtain ⟨_, dst, _, hd, _, _, dw, dh, _⟩ := hinv i hi
    rw [List.getElem?_map, hd, List.getElem?_map, List.getElem?_range hi]
    simp only [Option.map_some', ImageData.width, ImageData.height, dw, dh]
  · rw [List.getElem?_eq_none (by simp; omega), List.getElem?_eq_none (by simp; omega)]

/-- C13: for a base image of size `w x h` (`w, h ≥ 1`) and every `maxlevel`, the
total number of destination pixels of the level loop, the sum over the levels
`l = 1 .. levelCount` of `cw * ch`, is at most `4/3` of the base pixel count
`w * h`; for a base image satisfying the data-model invariant the chain
returned by `GenerateMipmap` has exactly these level sizes. -/
theorem GenerateMipmap_total_pixels (w h : Nat) (hw : 1 ≤ w) (hh : 1 ≤ h) (maxlevel : Int) :
    3 * ((List.range (resolveMaxLevel w h maxlevel).toNat).map
        (fun i => max 1 (w >>> (i + 1)) * max 1 (h >>> (i + 1)))).sum ≤ 4 * (w * h) ∧
    ∀ (M : FloatOps) (gamma : M.F) (img : ImageData 4), img.Valid → img.width = w →
      img.height = h →
      ∃ chain, GenerateMipmap M img maxlevel gamma = some chain ∧
        chain.map (fun level => level.width * level.height) =
          (List.range (resolveMaxLevel w h maxlevel).toNat).map
            (fun i => max 1 (w >>> (i + 1)) * max 1 (h >>> (i + 1))) ∧
        3 * (chain.map (fun level => level.width * level.height)).sum ≤ 4 * (w * h) := by
  have hle := resolveMaxLevel_le w h maxlevel
  have hpow : 2 ^ (resolveMaxLevel w h maxlevel).toNat ≤ max w h :=
    le_trans (Nat.pow_le_pow_right (by norm_num) hle) (Nat.pow_log_le_self 2 (by omega))
  have hb := level_sum_bound w h _ hpow
  have hw1 : max 1 w = w := Nat.max_eq_right hw
  have hh1 : max 1 h = h := Nat.max_eq_right hh
  rw [hw1, hh1] at hb
  have hsum : 3 * ((List.range (resolveMaxLevel w h maxlevel).toNat).map
      (fun i => max 1 (w >>> (i + 1)) * max 1 (h >>> (i + 1)))).sum ≤ 4 * (w * h) := by
    omega
  refine ⟨hsum, ?_⟩
  intro M gamma img hv hiw hih
  have hiw2 : img.width_ = w := hiw
  have hih2 : img.height_ = h := hih
  obtain ⟨chain, hc, hlen, hinv⟩ :=
    GenerateMipmap_spec M gamma img hv (by rw [hiw2]; exact hw) (by rw [hih2]; exact hh)
      maxlevel
  have he := chain_pixels_eq M gamma img chain hinv
  rw [hlen, hiw2, hih2] at he
  exact ⟨chain, hc, he, by rw [he]; exact hsum⟩

theorem GenerateMipmap_total_pixels_witness :
    (ramp3x5.Valid ∧ ramp3x5.width = 3 ∧ ramp3x5.height = 5) ∧
    3 * ((List.range (resolveMaxLevel 3 5 0).toNat).map
        (fun i => max 1 (3 >>> (i + 1)) * max 1 (5 >>> (i + 1)))).sum ≤ 4 * (3 * 5) ∧
    ∀ (M : FloatOps) (gamma : M.F) (img : ImageData 4), img.Valid → img.width = 3 →
      img.height = 5 →
      ∃ chain, GenerateMipmap M img 0 gamma = some chain ∧
        chain.map (fun level => level.width * level.height) =
          (List.range (resolveMaxLevel 3 5 0).toNat).map
            (fun i => max 1 (3 >>> (i + 1)) * max 1 (5 >>> (i + 1))) ∧
        3 * (chain.map (fun level => level.width * level.height)).sum ≤ 4 * (3 * 5) :=
  ⟨by decide, GenerateMipmap_total_pixels 3 5 (by decide) (by decide) 0⟩

/-! ## Destruction (C14) -/

/-- A buffer built by the pointer-wrapping constructor releases its pointer on
destruction, so the external store is never freed, for any number of
construct/destroy cycles over the same pointer. -/
theorem borrowed_never_freed (N width height : Nat) (data : List Nat) :
    (ImageData.borrowed N width height data).destroy = some StoreFate.released ∧
    ∀ n, ImageData.wrapCycles N width height data n true = some true := by
  refine ⟨rfl, ?_⟩
  intro n
  induction n with
  | zero => rfl
  | succ n ih =>
    unfold ImageData.wrapCycles
    have : ImageData.destroyStore true (ImageData.borrowed N width height data) = some true :=
      rfl
    rw [this]
    exact ih

/-- C14, the code at the failing input `ImageData<uint8_t, 4>(2, 2)`: the owning
constructor leaves `from_raw_pointer_` without a value, so the destructor
branches on an indeterminate member and the store is not determined to be freed. -/
theorem owned_destroy_undetermined :
    (ImageData.owned 4 2 2).from_raw_pointer_ = none ∧
    (ImageData.owned 4 2 2).destroy = none ∧
    (ImageData.owned 4 2 2).destroy ≠ some StoreFate.freed ∧
    (ImageData.borrowed 4 2 2 (List.range 16)).destroy = some StoreFate.released := by
  decide

/-! ## Memory safety (C15) -/

theorem source_valid (M : FloatOps) (gamma : M.F) (img : ImageData 4) (hv : img.Valid)
    (chain : List (ImageData 4)) (hinv : ChainOK M gamma img chain) (i : Nat)
    (hi : i < chain.length) (src : ImageData 4) (hs : sourceOf img chain i = some src) :
    src.Valid := by
  by_cases h0 : i = 0
  · subst h0
    simp [sourceOf] at hs
    rw [← hs]; exact hv
  · obtain ⟨_, dst, _, hd, _, _, _, _, dv, _, _⟩ := hinv (i - 1) (by omega)
    simp only [sourceOf, h0, if_false] at hs
    rw [hd] at hs
    cases hs
    exact dv

theorem samplePoints_eq (pw ph y x : Nat) (hpw : pw < 2 ^ 32) (hph : ph < 2 ^ 32)
    (hx : 2 * x < pw) (hy : 2 * y < ph) :
    samplePoints pw ph y x =
      [(2 * x, 2 * y), (min (2 * x + 1) (pw - 1), 2 * y),
       (2 * x, min (2 * y + 1) (ph - 1)),
       (min (2 * x + 1) (pw - 1), min (2 * y + 1) (ph - 1))] := by
  have ex0 : u32 (x <<< 1) = 2 * x := by
    rw [Nat.shiftLeft_eq, u32_of_lt (by omega)]; omega
  have ey0 : u32 (y <<< 1) = 2 * y := by
    rw [Nat.shiftLeft_eq, u32_of_lt (by omega)]; omega
  have ex1 : u32 (2 * x + 1) = 2 * x + 1 := u32_of_lt (by omega)
  have ey1 : u32 (2 * y + 1) = 2 * y + 1 := u32_of_lt (by omega)
  simp only [samplePoints, ex0, ey0, ex1, ey1]

theorem valid_dims_lt (src : ImageData 4) (hv : src.Valid) (hw : 1 ≤ src.width_)
    (hh : 1 ≤ src.height_) : src.width_ < 2 ^ 30 ∧ src.height_ < 2 ^ 30 := by
  have hb := hv.1
  constructor
  · by_contra hcon
    have : 2 ^ 30 * 1 ≤ src.width_ * src.height_ := Nat.mul_le_mul (by omega) hh
    omega
  · by_contra hcon
    have : 1 * 2 ^ 30 ≤ src.width_ * src.height_ := Nat.mul_le_mul hw (by omega)
    omega

theorem component_unique (cw ch k : Nat) (hk : k < cw * ch * 4) :
    ∃! p : Nat × Nat, p.1 < cw ∧ p.2 < ch ∧
      4 * (p.2 * cw) + 4 * p.1 ≤ k ∧ k < 4 * (p.2 * cw) + 4 * p.1 + 4 := by
  have hcw : 0 < cw := by
    rcases Nat.eq_zero_or_pos cw with h | h
    · subst h; simp at hk
    · exact h
  have hj : k / 4 < cw * ch := by omega
  have hdm := Nat.div_add_mod (k / 4) cw
  have hmod := Nat.mod_lt (k / 4) hcw
  have hcomm : cw * (k / 4 / cw) = k / 4 / cw * cw := Nat.mul_comm _ _
  refine ⟨(k / 4 % cw, k / 4 / cw), ⟨hmod, ?_, ?_, ?_⟩, ?_⟩
  · exact Nat.div_lt_of_lt_mul hj
  · show 4 * (k / 4 / cw * cw) + 4 * (k / 4 % cw) ≤ k
    omega
  · show k < 4 * (k / 4 / cw * cw) + 4 * (k / 4 % cw) + 4
    omega
  · rintro ⟨a, b⟩ ⟨h1, _, h3, h4⟩
    simp only at h1 h3 h4
    have hq : b * cw + a = k / 4 := by omega
    have hb : b = k / 4 / cw := by
      rw [← hq, Nat.mul_comm b cw, Nat.mul_add_div hcw, Nat.div_eq_of_lt h1]
      rfl
    have ha : a = k / 4 % cw := by
      rw [← hq, Nat.mul_comm b cw, Nat.mul_add_mod, Nat.mod_eq_of_lt h1]
    rw [ha, hb]

theorem level_run (M : FloatOps) (gamma : M.F) (src : ImageData 4) (hv : src.Valid)
    (cw ch : Nat) (hcw : ∀ x, x < cw → 2 * x < src.width_)
    (hch : ∀ y, y < ch → 2 * y < src.height_)
    (hsz : 2 * (cw * ch) ≤ src.width_ * src.height_) (x y : Nat) (hx : x < cw) (hy : y < ch) :
    ((ImageData.owned 4 cw ch).data_).length = cw * ch * 4 ∧
    4 * (y * cw) + 4 * x + 4 ≤ cw * ch * 4 ∧
    ∃ s1 s2 s3,
      mipRows M gamma src src.width_ src.height_ cw y ((ImageData.owned 4 cw ch).data_, 0) =
        some (s1, 4 * (y * cw)) ∧
      mipRow M gamma src src.width_ src.height_ x (s1, 4 * (y * cw)) y =
        some (s2, 4 * (y * cw) + 4 * x) ∧
      mipPixel M gamma src src.width_ src.height_ y x (s2, 4 * (y * cw) + 4 * x) =
        some (s3, 4 * (y * cw) + 4 * x + 4) := by
  have hb := hv.1
  have hcc := componentCount_of_lt cw ch (by omega)
  have hstore : ((ImageData.owned 4 cw ch).data_).length = cw * ch * 4 := by
    simp only [ImageData.owned, List.length_replicate, hcc]
  have hrow : (y + 1) * cw ≤ ch * cw := Nat.mul_le_mul_right cw hy
  rw [Nat.succ_mul] at hrow
  have hcomm : ch * cw = cw * ch := Nat.mul_comm ch cw
  have hdest : ∀ y2, y2 < ch → ∀ x2, x2 < cw →
      ∃ v, destPixel M gamma src src.width_ src.height_ y2 x2 = some v ∧ v.length = 4 := by
    intro y2 hy2 x2 hx2
    obtain ⟨v, h1, h2, _⟩ := destPixel_spec M gamma src hv x2 y2 (hcw x2 hx2) (hch y2 hy2)
    exact ⟨v, h1, h2⟩
  refine ⟨hstore, by omega, ?_⟩
  obtain ⟨s1, hs1, hl1, _, _⟩ := mipRows_spec M gamma src src.width_ src.height_ cw y
    (ImageData.owned 4 cw ch).data_ (fun y2 hy2 => hdest y2 (by omega))
    (by rw [hstore]; omega) (by omega)
  obtain ⟨s2, hs2, hl2, _, _⟩ := mipRow_spec M gamma src src.width_ src.height_ y x s1
    (4 * (y * cw)) (fun x2 hx2 => hdest y hy x2 (by omega))
    (by rw [hl1, hstore]; omega) (by omega)
  obtain ⟨v, hv1, hv2⟩ := hdest y hy x hx
  obtain ⟨s3, hs3, _, _, _⟩ := mipPixel_spec M gamma src src.width_ src.height_ y x s2
    (4 * (y * cw) + 4 * x) v hv1 hv2 (by rw [hl2, hl1, hstore]; omega) (by omega)
  exact ⟨s1, s2, s3, hs1, hs2, hs3⟩

theorem level_facts (w h l : Nat) (hl : 1 ≤ l) (hpow : 2 ^ l ≤ max w h) :
    (∀ x, x < max 1 (w >>> l) → 2 * x < max 1 (w >>> (l - 1))) ∧
    (∀ y, y < max 1 (h >>> l) → 2 * y < max 1 (h >>> (l - 1))) ∧
    2 * (max 1 (w >>> l) * max 1 (h >>> l)) ≤
      max 1 (w >>> (l - 1)) * max 1 (h >>> (l - 1)) := by
  refine ⟨?_, ?_, level_dims w h l hl hpow⟩
  · intro x hx
    rw [shiftRight_pred _ _ hl] at hx
    exact (half_dims _).2.1 x hx
  · intro y hy
    rw [shiftRight_pred _ _ hl] at hy
    exact (half_dims _).2.1 y hy

/-- Memory safety within the 32-bit component count: for a base image
satisfying the data-model invariant (`w, h ≥ 1`, `w*h*4 < 2 ^ 32`, a store of
at least `w*h*4` elements), every `maxlevel` and `gamma`, `GenerateMipmap`
has a defined result, and at each
level `l` the source buffer (the base or `chain[l-2]`) exists with size
`pw x ph` and a store of at least `pw*ph*4` elements, the four sample points
lie inside it and are read, the write index `curIndex` at destination pixel
`(x, y)` is `4*(y*cw) + 4*x` with the four written components inside the store
of `cw*ch*4` elements, and every component of the level is written by exactly
one destination pixel. -/
theorem GenerateMipmap_in_bounds (M : FloatOps) (gamma : M.F) (img : ImageData 4)
    (hv : img.Valid) (hw : 1 ≤ img.width) (hh : 1 ≤ img.height) (maxlevel : Int) :
    ∃ chain, GenerateMipmap M img maxlevel gamma = some chain ∧
      ∀ l, 1 ≤ l → l ≤ chain.length →
        ∃ src dst, (if l = 1 then some img else chain[l - 2]?) = some src ∧
          chain[l - 1]? = some dst ∧
          src.width = max 1 (img.width >>> (l - 1)) ∧
          src.height = max 1 (img.height >>> (l - 1)) ∧
          src.width * src.height * 4 ≤ src.data.length ∧
          dst.data.length = max 1 (img.width >>> l) * max 1 (img.height >>> l) * 4 ∧
          (∀ x y, x < max 1 (img.width >>> l) → y < max 1 (img.height >>> l) →
            (∀ p, p ∈ samplePoints src.width src.height y x →
              p.1 < src.width ∧ p.2 < src.height ∧ (src.ReadPixel p.1 p.2).isSome = true) ∧
            4 * (y * max 1 (img.width >>> l)) + 4 * x + 4 ≤
              max 1 (img.width >>> l) * max 1 (img.height >>> l) * 4 ∧
            ∃ s1 s2 s3,
              mipRows M gamma src src.width src.height (max 1 (img.width >>> l)) y
                ((ImageData.owned 4 (max 1 (img.width >>> l))
                  (max 1 (img.height >>> l))).data, 0) =
                some (s1, 4 * (y * max 1 (img.width >>> l))) ∧
              mipRow M gamma src src.width src.height x
                (s1, 4 * (y * max 1 (img.width >>> l))) y =
                some (s2, 4 * (y * max 1 (img.width >>> l)) + 4 * x) ∧
              mipPixel M gamma src src.width src.height y x
                (s2, 4 * (y * max 1 (img.width >>> l)) + 4 * x) =
                some (s3, 4 * (y * max 1 (img.width >>> l)) + 4 * x + 4)) ∧
          ∀ k, k < max 1 (img.width >>> l) * max 1 (img.height >>> l) * 4 →
            ∃! p : Nat × Nat, p.1 < max 1 (img.width >>> l) ∧ p.2 < max 1 (img.height >>> l) ∧
              4 * (p.2 * max 1 (img.width >>> l)) + 4 * p.1 ≤ k ∧
              k < 4 * (p.2 * max 1 (img.width >>> l)) + 4 * p.1 + 4 := by
  obtain ⟨chain, hc, hlen, hinv⟩ := GenerateMipmap_spec M gamma img hv hw hh maxlevel
  refine ⟨chain, hc, ?_⟩
  intro l hl1 hl2
  simp only [ImageData.width, ImageData.height, ImageData.data] at hw hh ⊢
  have hle := resolveMaxLevel_le img.width_ img.height_ maxlevel
  have hpow : 2 ^ l ≤ max img.width_ img.height_ :=
    le_trans (Nat.pow_le_pow_right (by norm_num) (by omega))
      (Nat.pow_log_le_self 2 (by omega))
  obtain ⟨src, dst, hs, hd, sw, sh, dw, dh, dv, dlen, _⟩ := hinv (l - 1) (by omega)
  have e : l - 1 + 1 = l := by omega
  rw [e] at dw dh
  have sv := source_valid M gamma img hv chain hinv (l - 1) (by omega) src hs
  obtain ⟨fx, fy, fsz⟩ := level_facts img.width_ img.height_ l hl1 hpow
  rw [← sw] at fx
  rw [← sh] at fy
  rw [← sw, ← sh] at fsz
  have hsrc : (if l = 1 then some img else chain[l - 2]?) = some src := by
    unfold sourceOf at hs
    by_cases h1 : l = 1
    · subst h1
      simpa using hs
    · have h0 : ¬ (l - 1 = 0) := by omega
      rw [if_neg h0] at hs
      rw [if_neg h1]
      have e2 : l - 1 - 1 = l - 2 := by omega
      rw [e2] at hs
      exact hs
  have hs1 : 1 ≤ src.width_ := by rw [sw]; omega
  have hs2 : 1 ≤ src.height_ := by rw [sh]; omega
  obtain ⟨hwlt, hhlt⟩ := valid_dims_lt src sv hs1 hs2
  refine ⟨src, dst, hsrc, hd, sw, sh, ?_, ?_, ?_, ?_⟩
  · have := sv.2.1
    have := sv.2.2
    omega
  · rw [dlen, dw, dh]
  · intro x y hx hy
    obtain ⟨_, hidx, hrun⟩ := level_run M gamma src sv _ _ fx fy fsz x y hx hy
    refine ⟨?_, hidx, hrun⟩
    intro p hp
    rw [samplePoints_eq _ _ y x (by omega) (by omega) (fx x hx) (fy y hy)] at hp
    have h2x := fx x hx
    have h2y := fy y hy
    have hx1 : min (2 * x + 1) (src.width_ - 1) < src.width_ := by
      have := Nat.min_le_right (2 * x + 1) (src.width_ - 1); omega
    have hy1 : min (2 * y + 1) (src.height_ - 1) < src.height_ := by
      have := Nat.min_le_right (2 * y + 1) (src.height_ - 1); omega
    simp only [List.mem_cons, List.mem_singleton, List.not_mem_nil, or_false] at hp
    rcases hp with h | h | h | h <;> subst h
    · obtain ⟨px, hr, _⟩ := channel_of_read src sv _ _ h2x h2y
      exact ⟨h2x, h2y, by rw [hr]; rfl⟩
    · obtain ⟨px, hr, _⟩ := channel_of_read src sv _ _ hx1 h2y
      exact ⟨hx1, h2y, by rw [hr]; rfl⟩
    · obtain ⟨px, hr, _⟩ := channel_of_read src sv _ _ h2x hy1
      exact ⟨h2x, hy1, by rw [hr]; rfl⟩
    · obtain ⟨px, hr, _⟩ := channel_of_read src sv _ _ hx1 hy1
      exact ⟨hx1, hy1, by rw [hr]; rfl⟩
  · intro k hk
    exact component_unique _ _ k hk

theorem GenerateMipmap_in_bounds_witness :
    ramp3x5.Valid ∧
    ∃ chain, GenerateMipmap quarterOps ramp3x5 0 (1 : Nat) = some chain ∧
      ∀ l, 1 ≤ l → l ≤ chain.length →
        ∃ src dst, (if l = 1 then some ramp3x5 else chain[l - 2]?) = some src ∧
          chain[l - 1]? = some dst ∧
          src.width * src.height * 4 ≤ src.data.length ∧
          dst.data.length =
            max 1 (ramp3x5.width >>> l) * max 1 (ramp3x5.height >>> l) * 4 ∧
          ∀ x y, x < max 1 (ramp3x5.width >>> l) → y < max 1 (ramp3x5.height >>> l) →
            ∀ p, p ∈ samplePoints src.width src.height y x →
              p.1 < src.width ∧ p.2 < src.height ∧
                (src.ReadPixel p.1 p.2).isSome = true := by
  obtain ⟨chain, hc, hall⟩ := GenerateMipmap_in_bounds quarterOps (1 : Nat) ramp3x5
    (by decide) (by decide) (by decide) 0
  refine ⟨by decide, chain, hc, ?_⟩
  intro l h1 h2
  obtain ⟨src, dst, a, b, _, _, c, d, e, _⟩ := hall l h1 h2
  exact ⟨src, dst, a, b, c, d, fun x y hx hy => (e x y hx hy).1⟩

/-! ## Edge clamp (C16) -/

/-- C16: at every level `l ≥ 1` and every destination pixel `(x, y)` with
`x < cw`, `y < ch`, the sample points are `x0 = 2x`, `y0 = 2y`; if `pw ≥ 2` then
`x1 = x0 + 1` (likewise `y1 = y0 + 1` if `ph ≥ 2`), so for an odd `pw ≥ 3` neither
`x0` nor `x1` is the last column `pw - 1` (likewise the last row for an odd
`ph ≥ 3`); when `pw = 1`, `x1 = x0 = 0` (likewise for `ph = 1`). -/
theorem edge_clamp (w h l x y : Nat) (hw : w < 2 ^ 32) (hh : h < 2 ^ 32) (hl : 1 ≤ l)
    (hx : x < max 1 (w >>> l)) (hy : y < max 1 (h >>> l)) :
    ∃ x0 x1 y0 y1,
      samplePoints (max 1 (w >>> (l - 1))) (max 1 (h >>> (l - 1))) y x =
        [(x0, y0), (x1, y0), (x0, y1), (x1, y1)] ∧
      x0 = 2 * x ∧ y0 = 2 * y ∧
      (2 ≤ max 1 (w >>> (l - 1)) → x1 = x0 + 1) ∧
      (2 ≤ max 1 (h >>> (l - 1)) → y1 = y0 + 1) ∧
      (3 ≤ max 1 (w >>> (l - 1)) → max 1 (w >>> (l - 1)) % 2 = 1 →
        x0 ≠ max 1 (w >>> (l - 1)) - 1 ∧ x1 ≠ max 1 (w >>> (l - 1)) - 1) ∧
      (3 ≤ max 1 (h >>> (l - 1)) → max 1 (h >>> (l - 1)) % 2 = 1 →
        y0 ≠ max 1 (h >>> (l - 1)) - 1 ∧ y1 ≠ max 1 (h >>> (l - 1)) - 1) ∧
      (max 1 (w >>> (l - 1)) = 1 → x0 = 0 ∧ x1 = 0) ∧
      (max 1 (h >>> (l - 1)) = 1 → y0 = 0 ∧ y1 = 0) := by
  rw [shiftRight_pred w l hl] at hx
  rw [shiftRight_pred h l hl] at hy
  have hwp : w >>> (l - 1) ≤ w := by
    rw [Nat.shiftRight_eq_div_pow]; exact Nat.div_le_self _ _
  have hhp : h >>> (l - 1) ≤ h := by
    rw [Nat.shiftRight_eq_div_pow]; exact Nat.div_le_self _ _
  have h2x := (half_dims (w >>> (l - 1))).2.1 x hx
  have h2y := (half_dims (h >>> (l - 1))).2.1 y hy
  refine ⟨2 * x, min (2 * x + 1) (max 1 (w >>> (l - 1)) - 1), 2 * y,
    min (2 * y + 1) (max 1 (h >>> (l - 1)) - 1),
    samplePoints_eq _ _ y x (by omega) (by omega) h2x h2y, rfl, rfl, ?_, ?_, ?_, ?_, ?_, ?_⟩
  · intro _; omega
  · intro _; omega
  · intro _ _; omega
  · intro _ _; omega
  · intro _; omega
  · intro _; omega

theorem edge_clamp_witness :
    (3 < 2 ^ 32 ∧ 5 < 2 ^ 32 ∧ 0 < max 1 (3 >>> 1) ∧ 1 < max 1 (5 >>> 1)) ∧
    ∃ x0 x1 y0 y1,
      samplePoints (max 1 (3 >>> (1 - 1))) (max 1 (5 >>> (1 - 1))) 1 0 =
        [(x0, y0), (x1, y0), (x0, y1), (x1, y1)] ∧
      x0 = 2 * 0 ∧ y0 = 2 * 1 ∧
      (2 ≤ max 1 (3 >>> (1 - 1)) → x1 = x0 + 1) ∧
      (2 ≤ max 1 (5 >>> (1 - 1)) → y1 = y0 + 1) ∧
      (3 ≤ max 1 (3 >>> (1 - 1)) → max 1 (3 >>> (1 - 1)) % 2 = 1 →
        x0 ≠ max 1 (3 >>> (1 - 1)) - 1 ∧ x1 ≠ max 1 (3 >>> (1 - 1)) - 1) ∧
      (3 ≤ max 1 (5 >>> (1 - 1)) → max 1 (5 >>> (1 - 1)) % 2 = 1 →
        y0 ≠ max 1 (5 >>> (1 - 1)) - 1 ∧ y1 ≠ max 1 (5 >>> (1 - 1)) - 1) ∧
      (max 1 (3 >>> (1 - 1)) = 1 → x0 = 0 ∧ x1 = 0) ∧
      (max 1 (5 >>> (1 - 1)) = 1 → y0 = 0 ∧ y1 = 0) :=
  ⟨by decide, edge_clamp 3 5 1 0 1 (by decide) (by decide) (by decide) (by decide) (by decide)⟩

/-! ## Prefix property (C17) -/

theorem mipLevel_append (M : FloatOps) (gamma : M.F) (img : ImageData 4)
    (chain c : List (ImageData 4)) (l : Nat) (h : mipLevel M img gamma chain l = some c) :
    ∃ d, c = chain ++ [d] := by
  unfold mipLevel at h
  simp only at h
  split at h
  · cases h
  · split at h
    · cases h
    · cases h
      exact ⟨_, rfl⟩

theorem levels_append (M : FloatOps) (gamma : M.F) (img : ImageData 4) (ls : List Nat) :
    ∀ chain c : List (ImageData 4), ls.foldlM (mipLevel M img gamma) chain = some c →
      ∃ rest, c = chain ++ rest := by
  induction ls with
  | nil =>
    intro chain c h
    simp only [List.foldlM_nil] at h
    cases h
    exact ⟨[], by simp⟩
  | cons l ls ih =>
    intro chain c h
    rw [List.foldlM_cons] at h
    cases h1 : mipLevel M img gamma chain l with
    | none => rw [h1] at h; cases h
    | some c1 =>
      rw [h1] at h
      simp only [Option.bind_eq_bind, Option.some_bind] at h
      obtain ⟨d, hd⟩ := mipLevel_append M gamma img chain c1 l h1
      obtain ⟨rest, hr⟩ := ih c1 c h
      exact ⟨d :: rest, by rw [hr, hd]; simp⟩

theorem levels_take (M : FloatOps) (gamma : M.F) (img : ImageData 4) (n m : Nat)
    (hnm : n ≤ m) (cn cm : List (ImageData 4))
    (hn : (List.range' 1 n).foldlM (mipLevel M img gamma) [] = some cn)
    (hlen : cn.length = n)
    (hm : (List.range' 1 m).foldlM (mipLevel M img gamma) [] = some cm) :
    cn = cm.take n := by
  have hsplit : List.range' 1 m = List.range' 1 n ++ List.range' (1 + n) (m - n) := by
    rw [List.range'_append_1]
    congr 1
    omega
  rw [hsplit, List.foldlM_append, hn] at hm
  simp only [Option.bind_eq_bind, Option.some_bind] at hm
  obtain ⟨rest, hr⟩ := levels_append M gamma img _ cn cm hm
  rw [hr, ← hlen, List.take_left']
  rfl

theorem GenerateMipmap_take (M : FloatOps) (gamma : M.F) (img : ImageData 4)
    (hv : img.Valid) (hw : 1 ≤ img.width) (hh : 1 ≤ img.height) (maxlevel : Int) :
    ∃ full part, GenerateMipmap M img 0 gamma = some full ∧
      GenerateMipmap M img maxlevel gamma = some part ∧
      full.length = Nat.log 2 (max img.width img.height) ∧
      part.length = (resolveMaxLevel img.width img.height maxlevel).toNat ∧
      part = full.take part.length := by
  obtain ⟨full, hf, hfl, _⟩ := GenerateMipmap_spec M gamma img hv hw hh 0
  obtain ⟨part, hp, hpl, _⟩ := GenerateMipmap_spec M gamma img hv hw hh maxlevel
  have e0 : (resolveMaxLevel img.width_ img.height_ 0).toNat =
      Nat.log 2 (max img.width_ img.height_) := by
    simp [resolveMaxLevel, floorLog2_eq_log]
  have hle := resolveMaxLevel_le img.width_ img.height_ maxlevel
  refine ⟨full, part, hf, hp, by rw [hfl, e0]; rfl, hpl, ?_⟩
  have hw2 : 1 ≤ img.width_ := hw
  unfold GenerateMipmap at hf hp
  simp only [ImageData.width, ImageData.height] at hf hp
  rw [if_neg (by omega)] at hf hp
  rw [e0] at hf
  exact levels_take M gamma img _ _ (by rw [hpl]; exact hle) part full
    (by rw [hpl]; exact hp) rfl hf

theorem levels_length (M : FloatOps) (gamma : M.F) (img : ImageData 4) (ls : List Nat) :
    ∀ chain c : List (ImageData 4), ls.foldlM (mipLevel M img gamma) chain = some c →
      c.length = chain.length + ls.length := by
  induction ls with
  | nil =>
    intro chain c h
    simp only [List.foldlM_nil] at h
    cases h
    simp
  | cons l ls ih =>
    intro chain c h
    rw [List.foldlM_cons] at h
    cases h1 : mipLevel M img gamma chain l with
    | none => rw [h1] at h; cases h
    | some c1 =>
      rw [h1] at h
      simp only [Option.bind_eq_bind, Option.some_bind] at h
      obtain ⟨d, hd⟩ := mipLevel_append M gamma img chain c1 l h1
      have hc1 : c1.length = chain.length + 1 := by
        rw [hd, List.length_append, List.length_singleton]
      have := ih c1 c h
      rw [this, hc1, List.length_cons]
      omega

theorem levels_prefix (M : FloatOps) (gamma : M.F) (img : ImageData 4) (n m : Nat)
    (hnm : n ≤ m) (cm : List (ImageData 4))
    (hm : (List.range' 1 m).foldlM (mipLevel M img gamma) [] = some cm) :
    (List.range' 1 n).foldlM (mipLevel M img gamma) [] = some (cm.take n) := by
  have hsplit : List.range' 1 m = List.range' 1 n ++ List.range' (1 + n) (m - n) := by
    rw [List.range'_append_1]
    congr 1
    omega
  cases hn : (List.range' 1 n).foldlM (mipLevel M img gamma) [] with
  | none =>
    rw [hsplit, List.foldlM_append, hn] at hm
    cases hm
  | some cn =>
    have hlen := levels_length M gamma img _ [] cn hn
    simp only [List.length_nil, List.length_range', Nat.zero_add] at hlen
    rw [levels_take M gamma img n m hnm cn cm hn hlen hm]

/-- C17: for every base image on which the full chain
`GenerateMipmap(base, 0, gamma)` is defined (as it is for every base image with
`w, h ≥ 1` satisfying the data-model invariant), and every `K > 0`, the chain of
`GenerateMipmap(base, K, gamma)` is the list of the first `min(K, D)` levels of
the full chain (equal as buffers: dimensions and every store element), and the
chain for `maxlevel = -K` is the list of its first `max(0, D - K)` levels
(`D - K` in the natural numbers); `D` is the length of the full chain. -/
theorem GenerateMipmap_prefix (M : FloatOps) (gamma : M.F) (img : ImageData 4)
    (full : List (ImageData 4)) (hfull : GenerateMipmap M img 0 gamma = some full)
    (K : Nat) (hK : 0 < K) :
    full.length = Nat.log 2 (max img.width img.height) ∧
    GenerateMipmap M img (K : Int) gamma =
      some (full.take (min K (Nat.log 2 (max img.width img.height)))) ∧
    GenerateMipmap M img (-(K : Int)) gamma =
      some (full.take (Nat.log 2 (max img.width img.height) - K)) := by
  unfold GenerateMipmap at hfull ⊢
  simp only [] at hfull ⊢
  by_cases h0 : max img.width img.height = 0
  · rw [if_pos h0] at hfull
    cases hfull
  · rw [if_neg h0] at hfull
    rw [if_neg h0, if_neg h0]
    have e0 : (resolveMaxLevel img.width img.height 0).toNat =
        Nat.log 2 (max img.width img.height) := by
      simp [resolveMaxLevel, floorLog2_eq_log]
    have eK : (resolveMaxLevel img.width img.height (K : Int)).toNat =
        min K (Nat.log 2 (max img.width img.height)) := by
      unfold resolveMaxLevel
      rw [floorLog2_eq_log, if_pos (by omega)]
      simp only [Int.ofNat_eq_coe]
      omega
    have eN : (resolveMaxLevel img.width img.height (-(K : Int))).toNat =
        Nat.log 2 (max img.width img.height) - K := by
      unfold resolveMaxLevel
      rw [floorLog2_eq_log, if_neg (by omega), if_pos (by omega)]
      simp only [Int.ofNat_eq_coe]
      omega
    rw [e0] at hfull
    rw [eK, eN]
    have hlen := levels_length M gamma img _ [] full hfull
    simp only [List.length_nil, List.length_range', Nat.zero_add] at hlen
    exact ⟨hlen, levels_prefix M gamma img _ _ (by omega) full hfull,
      levels_prefix M gamma img _ _ (by omega) full hfull⟩

theorem GenerateMipmap_prefix_witness :
    GenerateMipmap quarterOps flat4x4 0 (1 : Nat) =
      some [{ width_ := 2, height_ := 2, component_count_ := 16, from_raw_pointer_ := none,
              data_ := flatStore 4 [200, 200, 200, 255] },
            { width_ := 1, height_ := 1, component_count_ := 4, from_raw_pointer_ := none,
              data_ := [200, 200, 200, 255] }] ∧
    ([{ width_ := 2, height_ := 2, component_count_ := 16, from_raw_pointer_ := none,
        data_ := flatStore 4 [200, 200, 200, 255] },
      { width_ := 1, height_ := 1, component_count_ := 4, from_raw_pointer_ := none,
        data_ := [200, 200, 200, 255] }] : List (ImageData 4)).length =
      Nat.log 2 (max flat4x4.width flat4x4.height) ∧
    GenerateMipmap quarterOps flat4x4 ((1 : Nat) : Int) (1 : Nat) =
      some (([{ width_ := 2, height_ := 2, component_count_ := 16, from_raw_pointer_ := none,
                data_ := flatStore 4 [200, 200, 200, 255] },
              { width_ := 1, height_ := 1, component_count_ := 4, from_raw_pointer_ := none,
                data_ := [200, 200, 200, 255] }] : List (ImageData 4)).take
        (min 1 (Nat.log 2 (max flat4x4.width flat4x4.height)))) ∧
    GenerateMipmap quarterOps flat4x4 (-((1 : Nat) : Int)) (1 : Nat) =
      some (([{ width_ := 2, height_ := 2, component_count_ := 16, from_raw_pointer_ := none,
                data_ := flatStore 4 [200, 200, 200, 255] },
              { width_ := 1, height_ := 1, component_count_ := 4, from_raw_pointer_ := none,
                data_ := [200, 200, 200, 255] }] : List (ImageData 4)).take
        (Nat.log 2 (max flat4x4.width flat4x4.height) - 1)) :=
  ⟨by decide, GenerateMipmap_prefix quarterOps (1 : Nat) flat4x4 _ (by decide) 1 (by decide)⟩

/-! ## The exact box filter at gamma = 1 (C18) -/

theorem boxFilter_exact (M : FloatOps) (gamma : M.F) (val : M.F → ℚ)
    (hex : ExactAtOne M gamma val) (s00 s10 s01 s11 : Nat)
    (h0 : s00 < 256) (h1 : s10 < 256) (h2 : s01 < 256) (h3 : s11 < 256) :
    boxFilter M gamma s00 s10 s01 s11 = (s00 + s10 + s01 + s11) / 4 := by
  obtain ⟨hz, hof, hpow, hadd, hmul, hrec, htr⟩ := hex
  have p0 := hpow _ s00 (hof s00 h0) h0
  have p1 := hpow _ s10 (hof s10 h1) h1
  have p2 := hpow _ s01 (hof s01 h2) h2
  have p3 := hpow _ s11 (hof s11 h3) h3
  have hz0 : val M.zero = ((0 : Nat) : ℚ) := by rw [hz]; norm_num
  have a1 := hadd _ _ s00 s10 p0 p1 (by omega)
  have a2 := hadd _ _ s01 s11 p2 p3 (by omega)
  have a3 := hadd _ _ (s00 + s10) (s01 + s11) a1 a2 (by omega)
  have a4 := hadd _ _ 0 (s00 + s10 + (s01 + s11)) hz0 a3 (by omega)
  have m1 := hmul _ _ a4 (by omega)
  have r1 := hrec _ _ m1 (by omega)
  have t1 := htr _ _ r1 (by omega)
  unfold boxFilter
  rw [t1]
  congr 1
  omega

theorem quarterOps_exact :
    ExactAtOne quarterOps (1 : Nat) (fun a : Nat => (a : ℚ) / 4) := by
  refine ⟨?_, ?_, ?_, ?_, ?_, ?_, ?_⟩
  · show ((0 : Nat) : ℚ) / 4 = 0
    norm_num
  · intro c _
    show ((4 * c : Nat) : ℚ) / 4 = c
    push_cast
    ring
  · intro a n h _
    exact h
  · intro (a : Nat) (b : Nat) m n (ha : (a : ℚ) / 4 = (m : ℚ)) (hb : (b : ℚ) / 4 = (n : ℚ)) _
    show ((a + b : Nat) : ℚ) / 4 = ((m + n : Nat) : ℚ)
    push_cast
    rw [← ha, ← hb]
    ring
  · intro (a : Nat) n (ha : (a : ℚ) / 4 = (n : ℚ)) _
    have h4 : (a : ℚ) = ((4 * n : Nat) : ℚ) := by
      push_cast
      linarith
    have h5 : a = 4 * n := by exact_mod_cast h4
    show ((a / 4 : Nat) : ℚ) / 4 = (n : ℚ) / 4
    rw [h5, Nat.mul_div_cancel_left n (by norm_num)]
  · intro a n h _
    exact h
  · intro (a : Nat) n (ha : (a : ℚ) / 4 = (n : ℚ) / 4) _
    have h4 : (a : ℚ) = (n : ℚ) := by linarith
    have h5 : a = n := by exact_mod_cast h4
    show a / 4 = n / 4
    rw [h5]

theorem byteImage_of_mem (img : ImageData 4) (h : ∀ b, b ∈ img.data_ → b < 256) :
    ByteImage img := by
  intro x y c _ _ _
  unfold channelAt
  rw [List.getD_eq_getElem?_getD]
  cases hh : img.data_[(y * img.width_ + x) * 4 + c]? with
  | none => simp
  | some v =>
    simp only [Option.getD_some]
    exact h v (List.getElem?_mem hh)

theorem exact_level (M : FloatOps) (gamma : M.F) (val : M.F → ℚ)
    (hex : ExactAtOne M gamma val) (src dst : ImageData 4)
    (hf : FilteredFrom M gamma src dst) (hb : ByteImage src) :
    (∀ x y c, x < dst.width_ → y < dst.height_ → c < 4 →
      dst.data_[(y * dst.width_ + x) * 4 + c]? = some
        ((channelAt src (2 * x) (2 * y) c +
          channelAt src (min (2 * x + 1) (src.width_ - 1)) (2 * y) c +
          channelAt src (2 * x) (min (2 * y + 1) (src.height_ - 1)) c +
          channelAt src (min (2 * x + 1) (src.width_ - 1))
            (min (2 * y + 1) (src.height_ - 1)) c) / 4)) ∧
    ByteImage dst := by
  have key : ∀ x y c, x < dst.width_ → y < dst.height_ → c < 4 →
      dst.data_[(y * dst.width_ + x) * 4 + c]? = some
        ((channelAt src (2 * x) (2 * y) c +
          channelAt src (min (2 * x + 1) (src.width_ - 1)) (2 * y) c +
          channelAt src (2 * x) (min (2 * y + 1) (src.height_ - 1)) c +
          channelAt src (min (2 * x + 1) (src.width_ - 1))
            (min (2 * y + 1) (src.height_ - 1)) c) / 4) ∧
      (channelAt src (2 * x) (2 * y) c +
          channelAt src (min (2 * x + 1) (src.width_ - 1)) (2 * y) c +
          channelAt src (2 * x) (min (2 * y + 1) (src.height_ - 1)) c +
          channelAt src (min (2 * x + 1) (src.width_ - 1))
            (min (2 * y + 1) (src.height_ - 1)) c) / 4 < 256 := by
    intro x y c hx hy hc
    obtain ⟨h2x, h2y, hval⟩ := hf y hy x hx c hc
    have hx1 : min (2 * x + 1) (src.width_ - 1) < src.width_ := by
      have := Nat.min_le_right (2 * x + 1) (src.width_ - 1); omega
    have hy1 : min (2 * y + 1) (src.height_ - 1) < src.height_ := by
      have := Nat.min_le_right (2 * y + 1) (src.height_ - 1); omega
    have b0 := hb _ _ c h2x h2y hc
    have b1 := hb _ _ c hx1 h2y hc
    have b2 := hb _ _ c h2x hy1 hc
    have b3 := hb _ _ c hx1 hy1 hc
    rw [boxFilter_exact M gamma val hex _ _ _ _ b0 b1 b2 b3] at hval
    exact ⟨hval, by omega⟩
  refine ⟨fun x y c hx hy hc => (key x y c hx hy hc).1, ?_⟩
  intro x y c hx hy hc
  obtain ⟨h1, h2⟩ := key x y c hx hy hc
  unfold channelAt
  rw [List.getD_eq_getElem?_getD, h1]
  exact h2

theorem exact_chain (M : FloatOps) (gamma : M.F) (val : M.F → ℚ)
    (hex : ExactAtOne M gamma val) (img : ImageData 4) (chain : List (ImageData 4))
    (hinv : ChainOK M gamma img chain) (hb : ByteImage img) :
    ∀ i, i < chain.length → ∃ src dst, sourceOf img chain i = some src ∧
      chain[i]? = some dst ∧ ByteImage dst ∧
      src.width_ = max 1 (img.width_ >>> i) ∧ src.height_ = max 1 (img.height_ >>> i) ∧
      dst.width_ = max 1 (img.width_ >>> (i + 1)) ∧
      dst.height_ = max 1 (img.height_ >>> (i + 1)) ∧
      ∀ x y c, x < dst.width_ → y < dst.height_ → c < 4 →
        dst.data_[(y * dst.width_ + x) * 4 + c]? = some
          ((channelAt src (2 * x) (2 * y) c +
            channelAt src (min (2 * x + 1) (src.width_ - 1)) (2 * y) c +
            channelAt src (2 * x) (min (2 * y + 1) (src.height_ - 1)) c +
            channelAt src (min (2 * x + 1) (src.width_ - 1))
              (min (2 * y + 1) (src.height_ - 1)) c) / 4) := by
  intro i
  induction i with
  | zero =>
    intro hi
    obtain ⟨src, dst, hs, hd, sw, sh, dw, dh, _, _, hf⟩ := hinv 0 hi
    have : src = img := by
      simp [sourceOf] at hs
      exact hs.symm
    subst this
    obtain ⟨h1, h2⟩ := exact_level M gamma val hex src dst hf hb
    exact ⟨src, dst, hs, hd, h2, sw, sh, dw, dh, h1⟩
  | succ i ih =>
    intro hi
    obtain ⟨_, prev, _, hp, hpb, _⟩ := ih (by omega)
    obtain ⟨src, dst, hs, hd, sw, sh, dw, dh, _, _, hf⟩ := hinv (i + 1) hi
    have : src = prev := by
      have hs2 := hs
      simp only [sourceOf, Nat.add_one_ne_zero, if_false, Nat.add_sub_cancel] at hs2
      rw [hp] at hs2
      cases hs2
      rfl
    subst this
    obtain ⟨h1, h2⟩ := exact_level M gamma val hex src dst hf hpb
    exact ⟨src, dst, hs, hd, h2, sw, sh, dw, dh, h1⟩

/-- C18: with `gamma = 1` (floating point operations exact in the sense of
`ExactAtOne`, as binary double precision is) and a base image of bytes, every
stored value of every level is `floor((s00 + s10 + s01 + s11) / 4)` of the four
sampled source channel values, and a flat base of colour `col` yields levels
whose every pixel equals `col` exactly. -/
theorem GenerateMipmap_exact_box (M : FloatOps) (gamma : M.F) (val : M.F → ℚ)
    (hex : ExactAtOne M gamma val) (img : ImageData 4) (hv : img.Valid)
    (hw : 1 ≤ img.width) (hh : 1 ≤ img.height) (hbytes : ∀ b, b ∈ img.data → b < 256)
    (maxlevel : Int) :
    ∃ chain, GenerateMipmap M img maxlevel gamma = some chain ∧
      (∀ l, 1 ≤ l → l ≤ chain.length →
        ∃ src dst, (if l = 1 then some img else chain[l - 2]?) = some src ∧
          chain[l - 1]? = some dst ∧
          ∀ x y c, x < max 1 (img.width >>> l) → y < max 1 (img.height >>> l) → c < 4 →
            dst.data[(y * max 1 (img.width >>> l) + x) * 4 + c]? = some
              ((channelAt src (2 * x) (2 * y) c +
                channelAt src (min (2 * x + 1) (max 1 (img.width >>> (l - 1)) - 1)) (2 * y) c +
                channelAt src (2 * x)
                  (min (2 * y + 1) (max 1 (img.height >>> (l - 1)) - 1)) c +
                channelAt src (min (2 * x + 1) (max 1 (img.width >>> (l - 1)) - 1))
                  (min (2 * y + 1) (max 1 (img.height >>> (l - 1)) - 1)) c) / 4)) ∧
      (∀ col : Nat → Nat,
        (∀ x y c, x < img.width → y < img.height → c < 4 → channelAt img x y c = col c) →
        ∀ i, i < chain.length → ∃ level, chain[i]? = some level ∧
          ∀ x y c, x < level.width → y < level.height → c < 4 →
            channelAt level x y c = col c) := by
  obtain ⟨chain, hc, _, hinv⟩ := GenerateMipmap_spec M gamma img hv hw hh maxlevel
  have hb : ByteImage img := byteImage_of_mem img hbytes
  refine ⟨chain, hc, ?_, ?_⟩
  · intro l hl1 hl2
    obtain ⟨src, dst, hs, hd, _, sw, sh, dw, dh, hval⟩ :=
      exact_chain M gamma val hex img chain hinv hb (l - 1) (by omega)
    have e : l - 1 + 1 = l := by omega
    rw [e] at dw dh
    refine ⟨src, dst, ?_, hd, ?_⟩
    · unfold sourceOf at hs
      by_cases h1 : l = 1
      · subst h1
        simpa using hs
      · have h0 : ¬ (l - 1 = 0) := by omega
        rw [if_neg h0] at hs
        rw [if_neg h1]
        have e2 : l - 1 - 1 = l - 2 := by omega
        rw [e2] at hs
        exact hs
    · intro x y c hx hy hc
      simp only [ImageData.width, ImageData.height, ImageData.data] at hx hy ⊢
      rw [← dw] at hx
      rw [← dh] at hy
      rw [← sw, ← sh, ← dw]
      exact hval x y c hx hy hc
  · intro col hflat i hi
    obtain ⟨level, hl, hfl⟩ := flat_chain M gamma img chain hinv col hflat i hi
    refine ⟨level, hl, ?_⟩
    intro x y c hx hy hcc
    have hcol : col c < 256 := by
      rw [← hflat 0 0 c hw hh hcc]
      exact hb 0 0 c hw hh hcc
    have hfix : filterSame M gamma (col c) = col c := by
      unfold filterSame
      rw [boxFilter_exact M gamma val hex _ _ _ _ hcol hcol hcol hcol]
      omega
    rw [hfl x y c hx hy hcc]
    exact Function.iterate_fixed hfix (i + 1)

theorem GenerateMipmap_exact_box_witness :
    (flat4x4.Valid ∧ ∀ b, b ∈ flat4x4.data → b < 256) ∧
    ∃ chain, GenerateMipmap quarterOps flat4x4 0 (1 : Nat) = some chain ∧
      (∀ l, 1 ≤ l → l ≤ chain.length →
        ∃ src dst, (if l = 1 then some flat4x4 else chain[l - 2]?) = some src ∧
          chain[l - 1]? = some dst ∧
          ∀ x y c, x < max 1 (flat4x4.width >>> l) → y < max 1 (flat4x4.height >>> l) →
            c < 4 →
            dst.data[(y * max 1 (flat4x4.width >>> l) + x) * 4 + c]? = some
              ((channelAt src (2 * x) (2 * y) c +
                channelAt src (min (2 * x + 1) (max 1 (flat4x4.width >>> (l - 1)) - 1))
                  (2 * y) c +
                channelAt src (2 * x)
                  (min (2 * y + 1) (max 1 (flat4x4.height >>> (l - 1)) - 1)) c +
                channelAt src (min (2 * x + 1) (max 1 (flat4x4.width >>> (l - 1)) - 1))
                  (min (2 * y + 1) (max 1 (flat4x4.height >>> (l - 1)) - 1)) c) / 4)) ∧
      (∀ col : Nat → Nat,
        (∀ x y c, x < flat4x4.width → y < flat4x4.height → c < 4 →
          channelAt flat4x4 x y c = col c) →
        ∀ i, i < chain.length → ∃ level, chain[i]? = some level ∧
          ∀ x y c, x < level.width → y < level.height → c < 4 →
            channelAt level x y c = col c) :=
  ⟨⟨by decide, by decide⟩,
    GenerateMipmap_exact_box quarterOps (1 : Nat) (fun a : Nat => (a : ℚ) / 4)
      quarterOps_exact flat4x4 (by decide) (by decide) (by decide) (by decide) 0⟩

/-! ## Beyond the 32-bit component count -/

theorem ReadPixel_length {N : Nat} (img : ImageData N) (x y : Nat) (px : List Nat)
    (h : img.ReadPixel x y = some px) : px.length = N := by
  unfold ImageData.ReadPixel at h
  split at h
  · cases h
    rw [List.length_take, List.length_drop]
    omega
  · cases h

theorem destPixel_length (M : FloatOps) (gamma : M.F) (src : ImageData 4) (pw ph y x : Nat)
    (v : List Nat) (h : destPixel M gamma src pw ph y x = some v) : v.length = 4 := by
  unfold destPixel at h
  rw [samplePixels_eq] at h
  cases h0 : src.ReadPixel (u32 (x <<< 1)) (u32 (y <<< 1)) with
  | none => rw [h0] at h; cases h
  | some p00 =>
    cases h1 : src.ReadPixel (min (u32 (u32 (x <<< 1) + 1)) (pw - 1)) (u32 (y <<< 1)) with
    | none => rw [h0, h1] at h; cases h
    | some p10 =>
      cases h2 : src.ReadPixel (u32 (x <<< 1)) (min (u32 (u32 (y <<< 1) + 1)) (ph - 1)) with
      | none => rw [h0, h1, h2] at h; cases h
      | some p01 =>
        cases h3 : src.ReadPixel (min (u32 (u32 (x <<< 1) + 1)) (pw - 1))
            (min (u32 (u32 (y <<< 1) + 1)) (ph - 1)) with
        | none => rw [h0, h1, h2, h3] at h; cases h
        | some p11 =>
          rw [h0, h1, h2, h3] at h
          simp only [Option.map_some', Option.some.injEq] at h
          rw [← h]
          exact filterPixel_length M gamma _ _ _ _ (ReadPixel_length src _ _ _ h0)
            (ReadPixel_length src _ _ _ h1) (ReadPixel_length src _ _ _ h2)
            (ReadPixel_length src _ _ _ h3)

theorem mipPixel_empty_store (M : FloatOps) (gamma : M.F) (src : ImageData 4)
    (pw ph y x cur : Nat) : mipPixel M gamma src pw ph y x ([], cur) = none := by
  unfold mipPixel
  cases h : destPixel M gamma src pw ph y x with
  | none => rfl
  | some v =>
    have hl := destPixel_length M gamma src pw ph y x v h
    simp only [writeAt, hl, List.length_nil]
    rw [if_neg (by omega)]

theorem mipRows_empty_store (M : FloatOps) (gamma : M.F) (src : ImageData 4)
    (pw ph cw ch : Nat) (hcw : 0 < cw) (hch : 0 < ch) :
    mipRows M gamma src pw ph cw ch ([], 0) = none := by
  obtain ⟨n, rfl⟩ : ∃ n, cw = n + 1 := ⟨cw - 1, by omega⟩
  obtain ⟨m, rfl⟩ : ∃ m, ch = m + 1 := ⟨ch - 1, by omega⟩
  have hrow : mipRow M gamma src pw ph (n + 1) ([], 0) 0 = none := by
    unfold mipRow
    rw [List.range_succ_eq_map, List.foldlM_cons, mipPixel_empty_store]
    rfl
  unfold mipRows
  rw [List.range_succ_eq_map, List.foldlM_cons, hrow]
  rfl

theorem owned_wrapped_store : (ImageData.owned 4 32768 32768).data_ = [] := by
  decide

theorem half_of_65536 : max 1 (65536 >>> 1) = 32768 := by
  decide

theorem levels_of_65536 : (resolveMaxLevel 65536 65536 0).toNat = 16 := by
  decide

theorem mipLevel_empty_store (M : FloatOps) (gamma : M.F) (img : ImageData 4)
    (chain : List (ImageData 4)) (l : Nat)
    (h : (ImageData.owned 4 (max 1 (img.width >>> l)) (max 1 (img.height >>> l))).data_ = []) :
    mipLevel M img gamma chain l = none := by
  unfold mipLevel
  simp only []
  split
  · rfl
  · rw [h, mipRows_empty_store M gamma _ _ _ _ _ (by omega) (by omega)]

/-- C15, the code at the failing input, a 65536x65536 base image (whatever memory
its pointer refers to, be it all `2 ^ 34` bytes): the first level is built by
`ImageData{32768, 32768}`, whose component count wraps to `0`; its store is
empty and the first write at `curIndex = 0` addresses outside it, so the call
has no defined result. -/
theorem GenerateMipmap_large_base (M : FloatOps) (gamma : M.F) (data : List Nat) :
    (ImageData.owned 4 32768 32768).data = [] ∧
    GenerateMipmap M (ImageData.borrowed 4 65536 65536 data) 0 gamma = none := by
  refine ⟨owned_wrapped_store, ?_⟩
  have hstore : (ImageData.owned 4
      (max 1 ((ImageData.borrowed 4 65536 65536 data).width >>> 1))
      (max 1 ((ImageData.borrowed 4 65536 65536 data).height >>> 1))).data_ = [] := by
    show (ImageData.owned 4 (max 1 (65536 >>> 1)) (max 1 (65536 >>> 1))).data_ = []
    rw [half_of_65536]
    exact owned_wrapped_store
  have hlevel := mipLevel_empty_store M gamma (ImageData.borrowed 4 65536 65536 data) [] 1 hstore
  have hres : (resolveMaxLevel (ImageData.borrowed 4 65536 65536 data).width
      (ImageData.borrowed 4 65536 65536 data).height 0).toNat = 15 + 1 := levels_of_65536
  have hne : ¬ max (ImageData.borrowed 4 65536 65536 data).width
      (ImageData.borrowed 4 65536 65536 data).height = 0 := by
    show ¬ max 65536 65536 = 0
    norm_num
  unfold GenerateMipmap
  simp only []
  rw [if_neg hne, hres, List.range'_succ, List.foldlM_cons, hlevel]
  rfl

end Graphics
